import Mathlib

/-!
# A shallow embedding of the `log` package's `RotateWriter` (rotating file writer)

This file models, in Lean, the Go rotating log writer of this repository:
the `RotateWriter` struct with its operations `NewRotateWriter`, `Write`,
`close`, `openExistingOrNew`, `openNew`, `backupName`, `rotate`, `mill`,
`oldLogFiles`, `timeFromName` and `prefixAndExt` (the latter is rendered
here as `pfxAndExt`).

Modelling conventions:
* Go strings (byte slices; all names in play are ASCII) are modelled as
  `List Char`, abbreviated `GoStr`.
* The writer only ever touches files in the directory of its configured
  `filename` (`w.dir()`), so the file system is modelled as that single
  directory: a flag for existence of the directory plus a list of entries
  keyed by base filename.  `filename` is kept as a base name.
* OS calls that can fail for environmental reasons (permissions, disk
  full, ...) take an `OsEnv` of failure switches; `OsEnv.noFail` is the
  happy-path environment.  `os.File.Close` and in-model appends are taken
  to succeed (no claim concerns their failure).
* `time.Now()` is threaded explicitly as a `Time` argument (a civil date
  plus seconds within the day); Go durations are modelled in seconds.
* Writes through an open handle are modelled path-based; this agrees with
  Go's handle-based writes on every reachable state because the model (as
  the source) never unlinks the active file while its handle is open.
-/

namespace RotateLog

/-- Go strings, as lists of characters (the source only manipulates ASCII
file names, where Go's bytes and Lean's characters coincide). -/
abbrev GoStr := List Char

/-- Convert a Lean string literal to a `GoStr` (for concrete test inputs). -/
def str (s : String) : GoStr := s.toList

/-- The decimal digit characters, as Go's `%d` verb prints them. -/
def digitChar (k : Nat) : Char :=
  match k with
  | 0 => '0' | 1 => '1' | 2 => '2' | 3 => '3' | 4 => '4'
  | 5 => '5' | 6 => '6' | 7 => '7' | 8 => '8' | _ => '9'

/-- Fuel-bounded digit accumulator (structural recursion, so that closed
terms evaluate inside the kernel); with `n < fuel` the fuel never runs
out. -/
def natToCharsAux : Nat → Nat → GoStr → GoStr
  | 0, _n, acc => acc
  | fuel + 1, n, acc =>
    if n < 10 then digitChar n :: acc
    else natToCharsAux fuel (n / 10) (digitChar (n % 10) :: acc)

/-- Decimal rendering of a natural number, as Go's `fmt.Sprintf("%d", n)`
renders a nonnegative `int`. -/
def natToChars (n : Nat) : GoStr := natToCharsAux (n + 1) n []

/-- Decimal value of a digit string (used only to prove `natToChars` injective). -/
def charsVal (cs : GoStr) : Nat :=
  cs.foldl (fun acc c => 10 * acc + (c.toNat - 48)) 0

/-- Zero-pad a decimal rendering to the given width, as Go's reference
time layout `"2006-01-02"` pads year, month and day. -/
def padNum (width n : Nat) : GoStr :=
  let s := natToChars n
  List.replicate (width - s.length) '0' ++ s

/-- Go `strings.Split s "-"` from the Go standard library (the separator in
the source is always the single character `-`). -/
def splitDash : GoStr → List GoStr
  | [] => [[]]
  | c :: cs =>
    let r := splitDash cs
    if c = '-' then [] :: r
    else (c :: r.headD []) :: r.tail

/-- Go `strings.Join parts "-"` from the standard library. -/
def joinDash : List GoStr → GoStr
  | [] => []
  | [a] => a
  | a :: rest => a ++ '-' :: joinDash rest

/-- Go `filepath.Ext` on a base name: the suffix beginning at the final dot,
empty if the name contains no dot. -/
def extOf : GoStr → GoStr
  | [] => []
  | c :: cs =>
    let e := extOf cs
    if e.isEmpty then (if c = '.' then c :: cs else []) else e

/-- The slice `filename[:len(filename)-len(ext)]`: the base name with its
`filepath.Ext` suffix removed. -/
def stemOf (filename : GoStr) : GoStr :=
  filename.take (filename.length - (extOf filename).length)

/-- A civil date, as Go's `time.Parse("2006-01-02", _)` produces one. -/
structure Date where
  y : Nat
  m : Nat
  d : Nat
  deriving DecidableEq, Repr

/-- An instant: a civil date plus seconds within that day (UTC).  Stands
for Go's `time.Time` at the granularity the source uses. -/
structure Time where
  date : Date
  secs : Nat
  deriving DecidableEq, Repr

/-- Go `isLeap` (time package): leap year in the proleptic Gregorian calendar. -/
def isLeap (y : Nat) : Bool := y % 4 = 0 ∧ (¬ y % 100 = 0 ∨ y % 400 = 0)

/-- Go `daysIn(m, year)`: number of days of month `m` in year `y`. -/
def daysIn (y m : Nat) : Nat :=
  if m = 2 then (if isLeap y then 29 else 28)
  else if m = 4 ∨ m = 6 ∨ m = 9 ∨ m = 11 then 30
  else 31

/-- Go `time.Parse("2006-01-02", s)`: exactly four digits, dash, two digits,
dash, two digits, nothing more; month and day must be in range.  Returns
`none` where Go returns a parse error. -/
def parseDate (cs : GoStr) : Option Date :=
  match cs with
  | [y1, y2, y3, y4, s1, m1, m2, s2, d1, d2] =>
    if y1.isDigit ∧ y2.isDigit ∧ y3.isDigit ∧ y4.isDigit ∧ s1 = '-' ∧
       m1.isDigit ∧ m2.isDigit ∧ s2 = '-' ∧ d1.isDigit ∧ d2.isDigit then
      let y := charsVal [y1, y2, y3, y4]
      let m := charsVal [m1, m2]
      let d := charsVal [d1, d2]
      if 1 ≤ m ∧ m ≤ 12 ∧ 1 ≤ d ∧ d ≤ daysIn y m then some ⟨y, m, d⟩ else none
    else none
  | _ => none

/-- Go `t.Format("2006-01-02")`: zero-padded `YYYY-MM-DD`. -/
def Date.format (dt : Date) : GoStr :=
  padNum 4 dt.y ++ '-' :: padNum 2 dt.m ++ '-' :: padNum 2 dt.d

/-- Days since 1970-01-01 of a civil date (the standard civil-from-days
inverse used by Go's time package internals). -/
def daysFromCivil (dt : Date) : Int :=
  let y : Int := (dt.y : Int) - (if dt.m ≤ 2 then 1 else 0)
  let m : Int := dt.m
  let d : Int := dt.d
  let era : Int := (if 0 ≤ y then y else y - 399) / 400
  let yoe : Int := y - era * 400
  let doy : Int := (153 * (m + (if 2 < m then -3 else 9)) + 2) / 5 + d - 1
  let doe : Int := yoe * 365 + yoe / 4 - yoe / 100 + doy
  era * 146097 + doe - 719468

/-- Seconds since the epoch of an instant (Go `time.Time` comparison scale). -/
def Time.toSecs (t : Time) : Int := daysFromCivil t.date * 86400 + (t.secs : Int)

/-- Seconds since the epoch of the midnight instant `time.Parse` returns
for a bare date. -/
def Date.midnightSecs (dt : Date) : Int := daysFromCivil dt * 86400

/-! ## The file system and the OS environment -/

/-- One entry of the writer's directory: base filename, contents, and
permission mode (`os.FileMode` bits, e.g. `0644 = 420`). -/
structure DirFile where
  name : GoStr
  contents : GoStr
  mode : Nat
  deriving DecidableEq, Repr

/-- The writer's directory (`w.dir()`): whether it exists, and its files.
All paths the source touches live in this one directory, keyed here by
base filename. -/
structure FS where
  dirExists : Bool
  files : List DirFile
  deriving DecidableEq, Repr

/-- Look a file up by name (a real directory has unique names; all
model operations preserve that). -/
def FS.lookup (fs : FS) (name : GoStr) : Option DirFile :=
  fs.files.find? (fun f => f.name = name)

/-- Go `os.Remove`: drop the entry with the given name, if any. -/
def FS.remove (fs : FS) (name : GoStr) : FS :=
  { fs with files := fs.files.filter (fun f => ¬ f.name = name) }

/-- Write an entry (create/truncate/overwrite): any old entry of that
name is replaced. -/
def FS.setFile (fs : FS) (name contents : GoStr) (mode : Nat) : FS :=
  { fs with files := (fs.files.filter (fun f => ¬ f.name = name)) ++ [⟨name, contents, mode⟩] }

/-- Append to an existing entry.  The unreachable missing-entry branch
(the model, like the source, only appends through a handle it opened)
creates the entry. -/
def FS.append (fs : FS) (name p : GoStr) : FS :=
  match fs.lookup name with
  | some f => fs.setFile name (f.contents ++ p) f.mode
  | none => fs.setFile name p 420

/-- Environmental failure switches for the OS calls the source makes.
`true` means the corresponding call fails (permissions, disk full, ...). -/
structure OsEnv where
  statFails : Bool
  mkdirFails : Bool
  renameFails : Bool
  createFails : Bool
  appendOpenFails : Bool
  deriving DecidableEq, Repr

/-- The happy-path environment: every OS call succeeds. -/
def OsEnv.noFail : OsEnv :=
  { statFails := false, mkdirFails := false, renameFails := false,
    createFails := false, appendOpenFails := false }

/-- Outcome of `os.Stat`: success with file info, `os.IsNotExist`, or
another error. -/
inductive StatResult where
  | ok (f : DirFile)
  | notExist
  | otherError
  deriving DecidableEq, Repr

/-- Go `os.Stat` on a name in the writer's directory.  A missing directory
yields `IsNotExist`, as on a real file system. -/
def osStat (env : OsEnv) (fs : FS) (name : GoStr) : StatResult :=
  if env.statFails then .otherError
  else match (if fs.dirExists then fs.lookup name else none) with
    | some f => .ok f
    | none => .notExist

/-! ## The writer -/

/-- Errors the writer surfaces, one constructor per `fmt.Errorf` site of
the source. -/
inductive WErr where
  /-- Error `"write length %d exceeds maximum file size %d"`. -/
  | oversized (writeLen maxSize : Int)
  /-- Error `"error getting log file info: %s"`. -/
  | statError
  /-- Error `"can't make directories for new logfile: %s"`. -/
  | mkdirError
  /-- Error `"can't rename log file: %s"`. -/
  | renameError
  /-- Error `"can't open new logfile: %s"`. -/
  | openNewError
  deriving DecidableEq, Repr

/-- The `RotateWriter` struct.  `filename` is kept as a base name (the
`FS` is its directory); `file *os.File` becomes the flag `fileOpen`,
since the handle always refers to `filename`. -/
structure RotateWriter where
  filename : GoStr
  maxSize : Int
  maxAge : Int
  maxBackups : Int
  compress : Bool
  fileOpen : Bool
  size : Int
  deriving DecidableEq, Repr

/-- Go `NewRotateWriter`: pure configuration capture; `maxSize` arrives in
megabytes and is converted to bytes.  Note: no validation whatsoever. -/
def NewRotateWriter (filename : GoStr) (maxSize maxAge maxBackups : Int)
    (compress : Bool) : RotateWriter :=
  { filename := filename
    maxSize := maxSize * 1024 * 1024
    maxAge := maxAge
    maxBackups := maxBackups
    compress := compress
    fileOpen := false
    size := 0 }

/-- The whole mutable world: the writer, its directory, and the list of
backup names handed to the fire-and-forget `go w.compressFile(...)`. -/
structure World where
  w : RotateWriter
  fs : FS
  scheduled : List GoStr
  deriving DecidableEq, Repr

/-- Go `prefixAndExt`: file name prefix (stem plus a trailing dash) and
extension used by the retention sweep to filter directory entries. -/
def RotateWriter.pfxAndExt (w : RotateWriter) : GoStr × GoStr :=
  let filename := w.filename
  let ext := extOf filename
  (stemOf filename ++ ['-'], ext)

/-- Go `timeFromName`: extract the date encoded in a backup file name.
Strips `pfx` and `ext`, splits the rest on dashes, requires at least 4
parts, rejoins parts 1..3 and parses them as a date.  (Go's slicing
panics when prefix and extension overlap inside `filename`; the model's
`drop`/`take` clamp instead — no such name ever reaches this function.) -/
def RotateWriter.timeFromName (_w : RotateWriter) (filename pfx ext : GoStr) :
    Option Date :=
  if ¬ pfx.isPrefixOf filename then none
  else if ¬ ext.isSuffixOf filename then none
  else
    let ts := (filename.drop pfx.length).take (filename.length - ext.length - pfx.length)
    let parts := splitDash ts
    if parts.length < 4 then none
    else parseDate (joinDash ((parts.drop 1).take 3))

/-- The backup name `fmt.Sprintf("%s-%s-%d%s", prefix, timestamp, index, ext)`
that `backupName` probes for a given index. -/
def backupCandidate (name : GoStr) (dt : Date) (index : Nat) : GoStr :=
  stemOf name ++ '-' :: dt.format ++ '-' :: natToChars index ++ extOf name

/-- The `for { ... index++ }` probe loop of `backupName`: return the first
candidate `os.Stat` reports missing.  Fuel bounds the loop; with fuel
exceeding the number of directory entries and a truthful `stat` the
fallback (fuel exhaustion) is unreachable, since candidates are pairwise
distinct. -/
def scanBackupIndex (env : OsEnv) (fs : FS) (mk : Nat → GoStr) :
    Nat → Nat → GoStr
  | 0, index => mk index
  | fuel + 1, index =>
    match osStat env fs (mk index) with
    | .notExist => mk index
    | _ => scanBackupIndex env fs mk fuel (index + 1)

/-- Go `backupName(name, t)`: first unused `<stem>-<YYYY-MM-DD>-<index><ext>`
for the date of `t`, probing indices from 1. -/
def backupName (env : OsEnv) (fs : FS) (name : GoStr) (t : Time) : GoStr :=
  scanBackupIndex env fs (backupCandidate name t.date) (fs.files.length + 1) 1

/-- Insert into a sorted list, keeping existing order on ties. -/
def insertBy (le : α → α → Bool) (a : α) : List α → List α
  | [] => [a]
  | b :: bs => if le a b then a :: b :: bs else b :: insertBy le a bs

/-- A stable insertion sort.  (Go's `os.ReadDir` sorts by name with an
unstable algorithm and the source's `sort.Sort(byFormatTime(...))` is
likewise unstable but deterministic; no claim depends on the relative
order of ties, so a deterministic stable sort stands in for both.) -/
def sortBy (le : α → α → Bool) (l : List α) : List α :=
  l.foldr (insertBy le) []

/-- Lexicographic byte order on names, as `os.ReadDir` sorts entries. -/
def strLe : GoStr → GoStr → Bool
  | [], _ => true
  | _ :: _, [] => false
  | a :: as, b :: bs => if a = b then strLe as bs else decide (a < b)

/-- The order `byFormatTime.Less i j` is `b[i].timestamp.After(b[j].timestamp)`:
strictly more recent entries come first. -/
def byFormatTimeLe (a b : Date × GoStr) : Bool :=
  decide (b.1.midnightSecs < a.1.midnightSecs)

/-- Go `oldLogFiles`: list the directory, keep the non-directory entries
whose name `timeFromName` accepts (with the writer's prefix/ext), and
sort them by parsed date, most recent first.  `none` models the
`os.ReadDir` error when the directory is missing. -/
def oldLogFiles (_env : OsEnv) (s : World) : Option (List (Date × GoStr)) :=
  if ¬ s.fs.dirExists then none
  else
    let entries := sortBy strLe (s.fs.files.map (fun f => f.name))
    let pe := s.w.pfxAndExt
    let logFiles := entries.filterMap
      (fun n => (s.w.timeFromName n pe.1 pe.2).map (fun t => (t, n)))
    some (sortBy byFormatTimeLe logFiles)

/-- The files `mill` marks for deletion: everything beyond the
`maxBackups` most recent (when `maxBackups > 0`), plus every remaining
file whose parsed date lies before `now − maxAge` days (when
`maxAge > 0`). -/
def millDeletes (w : RotateWriter) (now : Time) (files : List (Date × GoStr)) :
    List (Date × GoStr) :=
  let cut :=
    if 0 < w.maxBackups ∧ (w.maxBackups : Int) < (files.length : Int) then
      (files.drop w.maxBackups.toNat, files.take w.maxBackups.toNat)
    else ([], files)
  if 0 < w.maxAge then
    cut.1 ++ cut.2.filter
      (fun f => decide (f.1.midnightSecs < now.toSecs - w.maxAge * 86400))
  else cut.1

/-- Go `mill`: the retention sweep.  Removes the marked files, ignoring
individual removal errors.  A `ReadDir` failure aborts the sweep
silently. -/
def mill (env : OsEnv) (now : Time) (s : World) : World :=
  if s.w.maxBackups = 0 ∧ s.w.maxAge = 0 then s
  else
    match oldLogFiles env s with
    | none => s
    | some files =>
      { s with fs := (millDeletes s.w now files).foldl (fun fs f => fs.remove f.2) s.fs }

/-- Go `close` (internal): close the handle if open.  `file.Close` errors
are not modelled (no claim concerns them); `w.file` is set to `nil`. -/
def closeW (s : World) : World :=
  { s with w := { s.w with fileOpen := false } }

/-- Go `openNew`: create the directory, move any existing live file out of
the way under its `backupName` (scheduling compression if configured),
and open a fresh truncated file at `filename`, resetting `size` to 0. -/
def openNew (env : OsEnv) (now : Time) (s : World) : Except WErr Unit × World :=
  if env.mkdirFails then (.error .mkdirError, s)
  else
    let s := { s with fs := { s.fs with dirExists := true } }
    let name := s.w.filename
    match osStat env s.fs name with
    | .ok info =>
      let newname := backupName env s.fs name now
      if env.renameFails then (.error .renameError, s)
      else
        let s := { s with fs := (s.fs.remove name).setFile newname info.contents info.mode }
        let s := if s.w.compress then { s with scheduled := s.scheduled ++ [newname] } else s
        if env.createFails then (.error .openNewError, s)
        else
          (.ok (), { s with fs := s.fs.setFile name [] info.mode,
                            w := { s.w with fileOpen := true, size := 0 } })
    | _ =>
      -- stat failed: skip the rename, keep the default mode 0644
      if env.createFails then (.error .openNewError, s)
      else
        let mode := match s.fs.lookup name with
          | some f => f.mode   -- O_CREATE keeps the mode of an existing file
          | none => 420
        (.ok (), { s with fs := s.fs.setFile name [] mode,
                          w := { s.w with fileOpen := true, size := 0 } })

/-- Go `rotate`: close, reopen fresh via `openNew` (which renames the live
file away), then run the retention sweep. -/
def rotate (env : OsEnv) (now : Time) (s : World) : Except WErr Unit × World :=
  let s := closeW s
  match openNew env now s with
  | (.error e, s) => (.error e, s)
  | (.ok _, s) => (.ok (), mill env now s)

/-- Go `openExistingOrNew(writeLen)`: run the sweep; then stat the live
file.  Missing → open fresh; stat error → fail; on-disk size plus the
incoming write already at the threshold → rotate; otherwise reopen in
append mode and adopt the on-disk size (falling back to the fresh-file
path if the append open fails). -/
def openExistingOrNew (env : OsEnv) (now : Time) (writeLen : Nat) (s : World) :
    Except WErr Unit × World :=
  let s := mill env now s
  let filename := s.w.filename
  match osStat env s.fs filename with
  | .notExist => openNew env now s
  | .otherError => (.error .statError, s)
  | .ok info =>
    if s.w.maxSize ≤ (info.contents.length : Int) + (writeLen : Int) then
      rotate env now s
    else if env.appendOpenFails then openNew env now s
    else
      (.ok (),
       { s with w := { s.w with fileOpen := true, size := (info.contents.length : Int) } })

/-- Go `Write`: the sole mutating operation.  Returns `(n, err)` like Go's
`io.Writer`; every error path of the source pairs with `n = 0`, and the
physical append is modelled as writing all bytes. -/
def Write (env : OsEnv) (now : Time) (p : GoStr) (s : World) :
    (Nat × Option WErr) × World :=
  let writeLen : Int := (p.length : Int)
  if s.w.maxSize < writeLen then
    ((0, some (.oversized writeLen s.w.maxSize)), s)
  else
    let step1 : Except WErr Unit × World :=
      if ¬ s.w.fileOpen then openExistingOrNew env now p.length s
      else (.ok (), s)
    match step1 with
    | (.error e, s) => ((0, some e), s)
    | (.ok _, s) =>
      let step2 : Except WErr Unit × World :=
        if s.w.maxSize < s.w.size + writeLen then rotate env now s
        else (.ok (), s)
      match step2 with
      | (.error e, s) => ((0, some e), s)
      | (.ok _, s) =>
        ((p.length, none),
         { s with fs := s.fs.append s.w.filename p,
                  w := { s.w with size := s.w.size + writeLen } })

/-- Go `Close` (public): close the handle; idempotent. -/
def CloseW (s : World) : Option WErr × World := (none, closeW s)

/-- Run a sequence of writes, threading the world (used to state the
sequence-of-writes claims). -/
def writeAll (env : OsEnv) (now : Time) (ps : List GoStr) (s : World) : World :=
  ps.foldl (fun s p => (Write env now p s).2) s

/-! ## Basic facts about the decimal rendering -/

lemma natToCharsAux_eq (n : Nat) : ∀ fuel acc, n < fuel →
    natToCharsAux fuel n acc = natToCharsAux (n + 1) n [] ++ acc := by
  induction n using Nat.strong_induction_on with
  | _ n ih =>
    intro fuel acc hfuel
    cases fuel with
    | zero => omega
    | succ f =>
      by_cases h : n < 10
      · show (if n < 10 then digitChar n :: acc else _)
            = (if n < 10 then digitChar n :: [] else _) ++ acc
        rw [if_pos h, if_pos h]
        rfl
      · show (if n < 10 then _ else natToCharsAux f (n / 10) (digitChar (n % 10) :: acc))
            = (if n < 10 then _ else natToCharsAux n (n / 10) (digitChar (n % 10) :: [])) ++ acc
        rw [if_neg h, if_neg h]
        have hdiv : n / 10 < n := Nat.div_lt_self (by omega) (by omega)
        rw [ih (n / 10) hdiv f _ (by omega),
          ih (n / 10) hdiv n _ (by omega)]
        simp

lemma natToChars_of_lt (n : Nat) (h : n < 10) : natToChars n = [digitChar n] := by
  show (if n < 10 then digitChar n :: [] else _) = [digitChar n]
  rw [if_pos h]

lemma natToChars_of_ge (n : Nat) (h : ¬ n < 10) :
    natToChars n = natToChars (n / 10) ++ [digitChar (n % 10)] := by
  show (if n < 10 then _ else natToCharsAux n (n / 10) (digitChar (n % 10) :: []))
      = natToChars (n / 10) ++ [digitChar (n % 10)]
  rw [if_neg h]
  exact natToCharsAux_eq (n / 10) n _ (by
    have := Nat.div_lt_self (show 0 < n by omega) (show 1 < 10 by omega)
    omega)

lemma natToChars_ne_nil (n : Nat) : natToChars n ≠ [] := by
  by_cases h : n < 10
  · rw [natToChars_of_lt n h]; simp
  · rw [natToChars_of_ge n h]; simp

lemma mem_natToChars (n : Nat) : ∀ c ∈ natToChars n, ∃ k, k < 10 ∧ c = digitChar k := by
  induction n using Nat.strong_induction_on with
  | _ n ih =>
    by_cases h : n < 10
    · rw [natToChars_of_lt n h]
      intro c hc
      simp only [List.mem_singleton] at hc
      exact ⟨n, h, hc⟩
    · rw [natToChars_of_ge n h]
      intro c hc
      rcases List.mem_append.mp hc with hc | hc
      · exact ih (n / 10) (Nat.div_lt_self (by omega) (by omega)) c hc
      · simp only [List.mem_singleton] at hc
        exact ⟨n % 10, Nat.mod_lt _ (by omega), hc⟩

lemma digitChar_isDigit (k : Nat) (h : k < 10) : (digitChar k).isDigit = true := by
  interval_cases k <;> decide

lemma digitChar_ne_dash (k : Nat) (h : k < 10) : digitChar k ≠ '-' := by
  interval_cases k <;> decide

lemma dash_not_mem_natToChars (n : Nat) : '-' ∉ natToChars n := by
  intro hmem
  obtain ⟨k, hk, hc⟩ := mem_natToChars n '-' hmem
  exact digitChar_ne_dash k hk hc.symm

lemma digitChar_toNat (k : Nat) (h : k < 10) : (digitChar k).toNat = 48 + k := by
  interval_cases k <;> decide

lemma charsVal_append_single (a : GoStr) (c : Char) :
    charsVal (a ++ [c]) = 10 * charsVal a + (c.toNat - 48) := by
  unfold charsVal
  rw [List.foldl_append]
  rfl

lemma charsVal_natToChars (n : Nat) : charsVal (natToChars n) = n := by
  induction n using Nat.strong_induction_on with
  | _ n ih =>
    by_cases h : n < 10
    · rw [natToChars_of_lt n h]
      show 10 * 0 + ((digitChar n).toNat - 48) = n
      rw [digitChar_toNat n h]
      omega
    · rw [natToChars_of_ge n h, charsVal_append_single,
        ih (n / 10) (Nat.div_lt_self (by omega) (by omega)),
        digitChar_toNat (n % 10) (Nat.mod_lt _ (by omega))]
      omega

lemma natToChars_injective : Function.Injective natToChars := by
  intro a b h
  have := congrArg charsVal h
  rwa [charsVal_natToChars, charsVal_natToChars] at this

lemma natToChars_length_of_le_99 (n : Nat) (h : n ≤ 99) :
    (natToChars n).length ≤ 2 := by
  by_cases h1 : n < 10
  · rw [natToChars_of_lt n h1]; simp
  · rw [natToChars_of_ge n h1, natToChars_of_lt (n / 10) (by omega)]
    simp

lemma padNum_two_spec (n : Nat) (h : n ≤ 99) :
    ∃ c1 c2, padNum 2 n = [c1, c2] := by
  unfold padNum
  have h1 := natToChars_length_of_le_99 n h
  have h2 : (natToChars n).length ≠ 0 := by
    simpa using natToChars_ne_nil n
  have h12 : (natToChars n).length = 1 ∨ (natToChars n).length = 2 := by omega
  rcases h12 with hL | hL
  · obtain ⟨c, hc⟩ := List.length_eq_one.mp hL
    exact ⟨'0', c, by simp [hc]⟩
  · obtain ⟨c1, c2, hc⟩ := List.length_eq_two.mp hL
    exact ⟨c1, c2, by simp [hc]⟩

lemma dash_not_mem_padNum (w n : Nat) : '-' ∉ padNum w n := by
  unfold padNum
  intro hmem
  rcases List.mem_append.mp hmem with hc | hc
  · have := List.eq_of_mem_replicate hc
    simp at this
  · exact dash_not_mem_natToChars n hc

/-! ## Facts about `splitDash` and `joinDash` -/

lemma splitDash_ne_nil (cs : GoStr) : splitDash cs ≠ [] := by
  cases cs with
  | nil => simp [splitDash]
  | cons c cs =>
    unfold splitDash
    by_cases h : c = '-' <;> simp [h]

lemma splitDash_no_dash (a : GoStr) (h : '-' ∉ a) : splitDash a = [a] := by
  induction a with
  | nil => rfl
  | cons c cs ih =>
    have hc : ¬ c = '-' := fun hc => h (hc ▸ List.mem_cons_self c cs)
    have hcs : '-' ∉ cs := fun hm => h (List.mem_cons_of_mem c hm)
    conv_lhs => rw [splitDash]
    rw [if_neg hc, ih hcs]
    rfl

lemma splitDash_append (a rest : GoStr) (h : '-' ∉ a) :
    splitDash (a ++ '-' :: rest) = a :: splitDash rest := by
  induction a with
  | nil =>
    show splitDash ('-' :: rest) = [] :: splitDash rest
    conv_lhs => rw [splitDash]
    rw [if_pos rfl]
  | cons c cs ih =>
    have hc : ¬ c = '-' := fun hc => h (hc ▸ List.mem_cons_self c cs)
    have hcs : '-' ∉ cs := fun hm => h (List.mem_cons_of_mem c hm)
    show splitDash (c :: (cs ++ '-' :: rest)) = (c :: cs) :: splitDash rest
    conv_lhs => rw [splitDash]
    rw [if_neg hc, ih hcs]
    rfl

/-! ## Facts about `extOf` and `stemOf` -/

lemma extOf_shape (cs : GoStr) : extOf cs = [] ∨ ∃ t, extOf cs = '.' :: t := by
  induction cs with
  | nil => left; rfl
  | cons c cs ih =>
    unfold extOf
    rcases ih with h | ⟨t, h⟩
    · rw [h]
      by_cases hc : c = '.'
      · right; exact ⟨cs, by simp [hc]⟩
      · left; simp [hc]
    · right
      refine ⟨t, ?_⟩
      rw [h]
      simp

lemma extOf_suffix (cs : GoStr) : extOf cs <:+ cs := by
  induction cs with
  | nil => simp [extOf]
  | cons c cs ih =>
    unfold extOf
    by_cases he : (extOf cs).isEmpty
    · by_cases hc : c = '.'
      · simp [he, hc]
      · simp only [he, hc, if_true, if_false]
        exact List.nil_suffix
    · simp only [he, if_false]
      exact ih.trans (List.suffix_cons c cs)

lemma stemOf_append_extOf (cs : GoStr) : stemOf cs ++ extOf cs = cs := by
  unfold stemOf
  set e := extOf cs with he
  have hsuf : e <:+ cs := by rw [he]; exact extOf_suffix cs
  obtain ⟨pre, hpre⟩ := hsuf
  rw [← hpre]
  have hl : (pre ++ e).length - e.length = pre.length := by
    rw [List.length_append]; omega
  rw [hl, List.take_left]

/-! ## The retention sweep cannot parse the names the writer produces -/

lemma parseDate_two_two_none (a b c : GoStr) (ha : a.length = 2) (hb : b.length = 2) :
    parseDate (a ++ '-' :: (b ++ '-' :: c)) = none := by
  obtain ⟨a1, a2, rfl⟩ := List.length_eq_two.mp ha
  obtain ⟨b1, b2, rfl⟩ := List.length_eq_two.mp hb
  show parseDate (a1 :: a2 :: '-' :: b1 :: b2 :: '-' :: c) = none
  match c with
  | [] => rfl
  | [x1] => rfl
  | [x1, x2] => rfl
  | [x1, x2, x3] => rfl
  | [x1, x2, x3, x4] =>
    show parseDate [a1, a2, '-', b1, b2, '-', x1, x2, x3, x4] = none
    simp only [parseDate]
    rw [if_neg]
    rintro ⟨-, -, h3, -⟩
    exact absurd h3 (by decide)
  | x1 :: x2 :: x3 :: x4 :: x5 :: rest => rfl

lemma timeFromName_backupCandidate_none (w : RotateWriter) (name : GoStr) (dt : Date)
    (i : Nat) (hm : dt.m ≤ 99) (hd : dt.d ≤ 99) :
    w.timeFromName (backupCandidate name dt i) (stemOf name ++ ['-']) (extOf name) = none := by
  obtain ⟨m1, m2, hm2⟩ := padNum_two_spec dt.m hm
  obtain ⟨d1, d2, hd2⟩ := padNum_two_spec dt.d hd
  set stem := stemOf name with hstem
  set ext := extOf name with hext
  set mid : GoStr := dt.format ++ '-' :: natToChars i with hmid
  have hcand : backupCandidate name dt i = (stem ++ ['-']) ++ (mid ++ ext) := by
    unfold backupCandidate
    rw [hmid]
    simp
  have hpfx : (stem ++ ['-']).isPrefixOf ((stem ++ ['-']) ++ (mid ++ ext)) = true := by
    rw [ List.isPrefixOf_iff_prefix]
    exact ⟨mid ++ ext, rfl⟩
  have hsfx : ext.isSuffixOf ((stem ++ ['-']) ++ (mid ++ ext)) = true := by
    rw [List.isSuffixOf_iff_suffix]
    rw [← List.append_assoc]
    exact List.suffix_append _ _
  have hdrop : (((stem ++ ['-']) ++ (mid ++ ext)).drop (stem ++ ['-']).length) = mid ++ ext :=
    List.drop_left _ _
  have htakelen : ((stem ++ ['-']) ++ (mid ++ ext)).length - ext.length - (stem ++ ['-']).length
      = mid.length := by
    simp only [List.length_append, List.length_singleton]
    omega
  have hsplit : splitDash mid = [padNum 4 dt.y, padNum 2 dt.m, padNum 2 dt.d, natToChars i] := by
    rw [hmid]
    unfold Date.format
    simp only [List.append_assoc, List.cons_append]
    rw [splitDash_append _ _ (dash_not_mem_padNum 4 dt.y)]
    rw [splitDash_append _ _ (dash_not_mem_padNum 2 dt.m)]
    rw [splitDash_append _ _ (dash_not_mem_padNum 2 dt.d)]
    rw [splitDash_no_dash _ (dash_not_mem_natToChars i)]
  have hjoin : joinDash [padNum 2 dt.m, padNum 2 dt.d, natToChars i]
      = padNum 2 dt.m ++ '-' :: (padNum 2 dt.d ++ '-' :: natToChars i) := by
    unfold joinDash
    rfl
  simp only [RotateWriter.timeFromName, hcand, hpfx, hsfx, not_true, if_false,
    hdrop, htakelen, List.take_left, hsplit, List.length_cons, List.length_nil,
    List.drop_succ_cons, List.drop_zero, List.take_succ_cons, List.take_zero]
  rw [if_neg (by omega)]
  show parseDate (joinDash [padNum 2 dt.m, padNum 2 dt.d, natToChars i]) = none
  rw [hjoin]
  exact parseDate_two_two_none _ _ _ (by rw [hm2]; rfl) (by rw [hd2]; rfl)

lemma timeFromName_self_none (w : RotateWriter) :
    w.timeFromName w.filename w.pfxAndExt.1 w.pfxAndExt.2 = none := by
  simp only [RotateWriter.timeFromName, RotateWriter.pfxAndExt]
  rw [if_pos]
  intro hpfx
  rw [ List.isPrefixOf_iff_prefix] at hpfx
  have h2 : stemOf w.filename ++ ['-'] <+: stemOf w.filename ++ extOf w.filename := by
    rw [stemOf_append_extOf]
    exact hpfx
  obtain ⟨t0, ht0⟩ := h2
  rw [List.append_assoc] at ht0
  have h3 : ('-' :: t0 : GoStr) = extOf w.filename := List.append_cancel_left ht0
  rcases extOf_shape w.filename with h | ⟨t, h⟩
  · rw [h] at h3
    exact absurd h3 (by simp)
  · rw [h] at h3
    have := congrArg (fun l => l.headD ' ') h3
    simp at this

/-! ## File-system lookup lemmas -/

lemma find?_filter_not (l : List DirFile) (n : GoStr) :
    (l.filter (fun f => ¬ f.name = n)).find? (fun f => f.name = n) = none := by
  induction l with
  | nil => rfl
  | cons f l ih =>
    by_cases h : f.name = n
    · simp only [List.filter_cons]
      rw [if_neg (by simp [h])]
      exact ih
    · simp only [List.filter_cons]
      rw [if_pos (by simpa using h)]
      rw [List.find?_cons_of_neg _ (by simpa using h)]
      exact ih

lemma find?_filter_ne (l : List DirFile) (n n' : GoStr) (h : ¬ n' = n) :
    (l.filter (fun f => ¬ f.name = n)).find? (fun f => f.name = n')
      = l.find? (fun f => f.name = n') := by
  induction l with
  | nil => rfl
  | cons f l ih =>
    by_cases hf : f.name = n
    · have hf' : ¬ f.name = n' := by rw [hf]; exact fun hc => h hc.symm
      simp only [List.filter_cons, hf]
      rw [List.find?_cons_of_neg _ (by simpa using hf')]
      simpa using ih
    · simp only [List.filter_cons]
      rw [if_pos (by simpa using hf)]
      by_cases hf' : f.name = n'
      · rw [List.find?_cons_of_pos _ (by simpa using hf'),
          List.find?_cons_of_pos _ (by simpa using hf')]
      · rw [List.find?_cons_of_neg _ (by simpa using hf'),
          List.find?_cons_of_neg _ (by simpa using hf')]
        exact ih

lemma lookup_setFile_self (fs : FS) (n c : GoStr) (m : Nat) :
    (fs.setFile n c m).lookup n = some ⟨n, c, m⟩ := by
  unfold FS.setFile FS.lookup
  rw [List.find?_append, find?_filter_not]
  simp

lemma lookup_setFile_ne (fs : FS) (n c : GoStr) (m : Nat) (n' : GoStr) (h : ¬ n' = n) :
    (fs.setFile n c m).lookup n' = fs.lookup n' := by
  unfold FS.setFile FS.lookup
  rw [List.find?_append, find?_filter_ne _ _ _ h]
  cases hfind : fs.files.find? (fun f => f.name = n') with
  | some f => rfl
  | none =>
    simp only [Option.none_or]
    rw [List.find?_cons_of_neg _
      (by simp only [decide_eq_true_eq]; exact fun hc => h hc.symm), List.find?_nil]

lemma lookup_remove_ne (fs : FS) (n n' : GoStr) (h : ¬ n' = n) :
    (fs.remove n).lookup n' = fs.lookup n' := by
  unfold FS.remove FS.lookup
  exact find?_filter_ne _ _ _ h

lemma lookup_remove_self (fs : FS) (n : GoStr) : (fs.remove n).lookup n = none := by
  unfold FS.remove FS.lookup
  exact find?_filter_not _ _

lemma setFile_dirExists (fs : FS) (n c : GoStr) (m : Nat) :
    (fs.setFile n c m).dirExists = fs.dirExists := rfl

lemma remove_dirExists (fs : FS) (n : GoStr) : (fs.remove n).dirExists = fs.dirExists := rfl

/-! ## What the retention sweep can and cannot touch -/

lemma mem_insertBy (le : α → α → Bool) (x a : α) (l : List α) :
    a ∈ insertBy le x l ↔ a = x ∨ a ∈ l := by
  induction l with
  | nil => simp [insertBy]
  | cons b bs ih =>
    unfold insertBy
    by_cases hle : le x b = true
    · rw [if_pos hle]
      simp
    · rw [if_neg hle]
      simp only [List.mem_cons, ih]
      tauto

lemma mem_sortBy (le : α → α → Bool) (a : α) (l : List α) :
    a ∈ sortBy le l ↔ a ∈ l := by
  induction l with
  | nil => simp [sortBy]
  | cons b bs ih =>
    show a ∈ insertBy le b (sortBy le bs) ↔ _
    rw [mem_insertBy]
    simp [ih]

lemma oldLogFiles_mem (env : OsEnv) (s : World) (l : List (Date × GoStr))
    (hol : oldLogFiles env s = some l) :
    ∀ x ∈ l, s.w.timeFromName x.2 s.w.pfxAndExt.1 s.w.pfxAndExt.2 = some x.1 := by
  unfold oldLogFiles at hol
  by_cases hdir : s.fs.dirExists
  · rw [if_neg (by simpa using hdir)] at hol
    intro x hx
    have hl := (Option.some.injEq _ _).mp hol
    rw [← hl] at hx
    rw [mem_sortBy] at hx
    rw [List.mem_filterMap] at hx
    obtain ⟨n, _hn, hmap⟩ := hx
    cases hparse : s.w.timeFromName n s.w.pfxAndExt.1 s.w.pfxAndExt.2 with
    | none => rw [hparse] at hmap; simp at hmap
    | some t =>
      rw [hparse] at hmap
      simp only [Option.map_some'] at hmap
      cases hmap
      exact hparse
  · rw [if_pos (by simpa using hdir)] at hol
    exact absurd hol (by simp)

lemma lookup_foldl_remove (L : List (Date × GoStr)) (fs : FS) (n : GoStr)
    (h : ∀ x ∈ L, ¬ x.2 = n) :
    ((L.foldl (fun fs f => fs.remove f.2) fs)).lookup n = fs.lookup n := by
  induction L generalizing fs with
  | nil => rfl
  | cons x L ih =>
    show ((L.foldl _ (fs.remove x.2))).lookup n = _
    rw [ih _ (fun y hy => h y (List.mem_cons_of_mem x hy))]
    rw [lookup_remove_ne]
    exact fun hc => h x (List.mem_cons_self x L) hc.symm

lemma foldl_remove_dirExists (L : List (Date × GoStr)) (fs : FS) :
    ((L.foldl (fun fs f => fs.remove f.2) fs)).dirExists = fs.dirExists := by
  induction L generalizing fs with
  | nil => rfl
  | cons x L ih => exact ih (fs.remove x.2)

lemma mill_w (env : OsEnv) (now : Time) (s : World) : (mill env now s).w = s.w := by
  unfold mill
  split
  · rfl
  · split
    · rfl
    · rfl

lemma mill_scheduled (env : OsEnv) (now : Time) (s : World) :
    (mill env now s).scheduled = s.scheduled := by
  unfold mill
  split
  · rfl
  · split
    · rfl
    · rfl

lemma mill_dirExists (env : OsEnv) (now : Time) (s : World) :
    (mill env now s).fs.dirExists = s.fs.dirExists := by
  unfold mill
  split
  · rfl
  · split
    · rfl
    · exact foldl_remove_dirExists _ _

lemma millDeletes_subset (w : RotateWriter) (now : Time) (files : List (Date × GoStr)) :
    ∀ x ∈ millDeletes w now files, x ∈ files := by
  intro x hx
  unfold millDeletes at hx
  split at hx
  · dsimp only at hx
    split at hx
    · rcases List.mem_append.mp hx with h1 | h1
      · exact List.mem_of_mem_drop h1
      · exact List.mem_of_mem_take (List.mem_of_mem_filter h1)
    · exact List.mem_of_mem_drop hx
  · dsimp only at hx
    split at hx
    · rcases List.mem_append.mp hx with h1 | h1
      · exact absurd h1 (by simp)
      · exact List.mem_of_mem_filter h1
    · exact absurd hx (by simp)

/-- The sweep never touches a file whose name its parser rejects; in
particular lookups of such names go through `mill` unchanged. -/
lemma mill_lookup_unparsed (env : OsEnv) (now : Time) (s : World) (n : GoStr)
    (h : s.w.timeFromName n s.w.pfxAndExt.1 s.w.pfxAndExt.2 = none) :
    (mill env now s).fs.lookup n = s.fs.lookup n := by
  unfold mill
  split
  · rfl
  · split
    · rfl
    · rename_i files hol
      apply lookup_foldl_remove
      intro x hx hxn
      have hxin : x ∈ files := millDeletes_subset s.w now files x hx
      have := oldLogFiles_mem env s files hol x hxin
      rw [hxn, h] at this
      exact absurd this (by simp)

/-- No name in the directory parses with the writer's prefix/extension:
then the sweep finds nothing and is the identity.  (Because of the
prefix/date mismatch this holds for every directory the writer populates
by itself.) -/
def noParse (s : World) : Prop :=
  ∀ f ∈ s.fs.files, s.w.timeFromName f.name s.w.pfxAndExt.1 s.w.pfxAndExt.2 = none

instance noParse_decidable (s : World) : Decidable (noParse s) := by
  unfold noParse
  exact List.decidableBAll _ _

lemma oldLogFiles_of_noParse (env : OsEnv) (s : World) (h : noParse s)
    (hdir : s.fs.dirExists = true) : oldLogFiles env s = some [] := by
  have hfm : (sortBy strLe (s.fs.files.map (fun f => f.name))).filterMap
      (fun n => (s.w.timeFromName n s.w.pfxAndExt.1 s.w.pfxAndExt.2).map (fun t => (t, n)))
      = [] := by
    rw [List.filterMap_eq_nil_iff]
    intro n hn
    rw [mem_sortBy, List.mem_map] at hn
    obtain ⟨f, hf, rfl⟩ := hn
    rw [h f hf]
    rfl
  unfold oldLogFiles
  rw [if_neg (by simp [hdir])]
  dsimp only
  rw [hfm]
  rfl

lemma mill_of_noParse (env : OsEnv) (now : Time) (s : World) (h : noParse s) :
    mill env now s = s := by
  unfold mill
  split
  · rfl
  · by_cases hdir : s.fs.dirExists = true
    · rw [oldLogFiles_of_noParse env s h hdir]
      show { s with fs := (millDeletes s.w now []).foldl _ s.fs } = s
      have hdel : millDeletes s.w now [] = [] := by
        unfold millDeletes
        split <;> split <;> simp
      rw [hdel]
      rfl
    · have : oldLogFiles env s = none := by
        unfold oldLogFiles
        rw [if_pos (by simpa using hdir)]
      rw [this]

/-! ## The index probe of `backupName` returns the least unused index -/

lemma backupCandidate_injective (name : GoStr) (dt : Date) :
    Function.Injective (backupCandidate name dt) := by
  intro i j h
  unfold backupCandidate at h
  simp only [List.append_assoc, List.cons_append] at h
  have h1 := List.append_cancel_left h
  injection h1 with _ h2
  have h3 := List.append_cancel_left h2
  injection h3 with _ h4
  have h5 := List.append_cancel_right h4
  exact natToChars_injective h5

lemma scanBackupIndex_eq_of_least (env : OsEnv) (fs : FS) (mk : Nat → GoStr)
    (fuel start i : Nat)
    (hfree : osStat env fs (mk i) = .notExist)
    (hstart : start ≤ i) (hfuel : i < start + fuel)
    (hmin : ∀ j, start ≤ j → j < i → ¬ osStat env fs (mk j) = .notExist) :
    scanBackupIndex env fs mk fuel start = mk i := by
  induction fuel generalizing start with
  | zero => exact absurd hfuel (by omega)
  | succ fuel ih =>
    unfold scanBackupIndex
    cases hstat : osStat env fs (mk start) with
    | notExist =>
      have : i = start := by
        by_contra hne
        exact hmin start (le_refl start) (by omega) hstat
      rw [this]
    | ok f =>
      have hne : ¬ i = start := fun hc => by rw [hc, hstat] at hfree; exact absurd hfree (by simp)
      exact ih (start + 1) (by omega) (by omega)
        (fun j hj1 hj2 => hmin j (by omega) hj2)
    | otherError =>
      have hne : ¬ i = start := fun hc => by rw [hc, hstat] at hfree; exact absurd hfree (by simp)
      exact ih (start + 1) (by omega) (by omega)
        (fun j hj1 hj2 => hmin j (by omega) hj2)

lemma exists_free_index (env : OsEnv) (fs : FS) (mk : Nat → GoStr)
    (hstat : env.statFails = false) (hinj : Function.Injective mk) (start : Nat) :
    ∃ i, start ≤ i ∧ i < start + (fs.files.length + 1) ∧
      osStat env fs (mk i) = .notExist := by
  by_contra hno
  push_neg at hno
  -- every probed candidate is an existing file name; they are pairwise
  -- distinct, yet there are more of them than directory entries
  have hmem : ∀ k < fs.files.length + 1, mk (start + k) ∈ fs.files.map (fun f => f.name) := by
    intro k hk
    have h1 := hno (start + k) (by omega) (by omega)
    unfold osStat at h1
    rw [hstat] at h1
    simp only [Bool.false_eq_true, if_false] at h1
    cases hcase : (if fs.dirExists then fs.lookup (mk (start + k)) else none) with
    | none => rw [hcase] at h1; exact absurd rfl h1
    | some f =>
      have hlk : fs.lookup (mk (start + k)) = some f := by
        by_cases hd : fs.dirExists
        · rwa [if_pos hd] at hcase
        · rw [if_neg hd] at hcase; exact absurd hcase (by simp)
      have := List.find?_some hlk
      have hmemf := List.mem_of_find?_eq_some hlk
      rw [List.mem_map]
      refine ⟨f, hmemf, ?_⟩
      simpa using this
  set L := (List.range (fs.files.length + 1)).map (fun k => mk (start + k)) with hL
  have hnodup : L.Nodup := by
    rw [hL]
    refine List.Nodup.map ?_ (List.nodup_range _)
    intro a b hab
    have := hinj hab
    omega
  have hsub : L ⊆ fs.files.map (fun f => f.name) := by
    rw [hL]
    intro x hx
    rw [List.mem_map] at hx
    obtain ⟨k, hk, rfl⟩ := hx
    exact hmem k (List.mem_range.mp hk)
  have hcard : L.length ≤ (fs.files.map (fun f => f.name)).length := by
    calc L.length = L.toFinset.card := (List.toFinset_card_of_nodup hnodup).symm
    _ ≤ (fs.files.map (fun f => f.name)).toFinset.card := by
        apply Finset.card_le_card
        intro x hx
        rw [List.mem_toFinset] at hx
        rw [List.mem_toFinset]
        exact hsub hx
    _ ≤ (fs.files.map (fun f => f.name)).length := List.toFinset_card_le _
  rw [hL] at hcard
  simp at hcard

/-- The probe `backupName` returns the candidate with the least index `i ≥ 1` whose
name is absent, and that name is indeed absent. -/
lemma backupName_least (env : OsEnv) (fs : FS) (name : GoStr) (t : Time)
    (hstat : env.statFails = false) :
    ∃ i, 1 ≤ i ∧ backupName env fs name t = backupCandidate name t.date i ∧
      osStat env fs (backupCandidate name t.date i) = .notExist ∧
      ∀ j, 1 ≤ j → j < i → ¬ osStat env fs (backupCandidate name t.date j) = .notExist := by
  have hex := exists_free_index env fs (backupCandidate name t.date) hstat
    (backupCandidate_injective name t.date) 1
  have hP : ∃ i, 1 ≤ i ∧ osStat env fs (backupCandidate name t.date i) = .notExist := by
    obtain ⟨i, h1, _, h3⟩ := hex
    exact ⟨i, h1, h3⟩
  classical
  let i0 := Nat.find hP
  have hi0 := Nat.find_spec hP
  refine ⟨i0, hi0.1, ?_, hi0.2, ?_⟩
  · unfold backupName
    apply scanBackupIndex_eq_of_least env fs _ _ _ i0 hi0.2 hi0.1
    · obtain ⟨i, h1, h2, h3⟩ := hex
      have : i0 ≤ i := Nat.find_min' hP ⟨h1, h3⟩
      omega
    · intro j hj1 hj2 hfree
      exact absurd (And.intro hj1 hfree) (Nat.find_min hP hj2)
  · intro j hj1 hj2 hfree
    exact absurd (And.intro hj1 hfree) (Nat.find_min hP hj2)

/-! ## Happy-path specifications of the writer's operations -/

/-- The configuration fields `Write` and its helpers never change. -/
def sameConfig (w w' : RotateWriter) : Prop :=
  w'.filename = w.filename ∧ w'.maxSize = w.maxSize ∧ w'.maxAge = w.maxAge ∧
  w'.maxBackups = w.maxBackups ∧ w'.compress = w.compress

lemma sameConfig_refl (w : RotateWriter) : sameConfig w w :=
  ⟨rfl, rfl, rfl, rfl, rfl⟩

lemma osStat_ne_otherError (env : OsEnv) (fs : FS) (n : GoStr)
    (hst : env.statFails = false) : ¬ osStat env fs n = .otherError := by
  unfold osStat
  rw [hst]
  simp only [Bool.false_eq_true, if_false]
  cases (if fs.dirExists then fs.lookup n else none) <;> simp

lemma osStat_ok_lookup (env : OsEnv) (fs : FS) (n : GoStr) (f : DirFile)
    (hst : env.statFails = false) (h : osStat env fs n = .ok f) :
    fs.lookup n = some f ∧ fs.dirExists = true := by
  unfold osStat at h
  rw [hst] at h
  simp only [Bool.false_eq_true, if_false] at h
  by_cases hd : fs.dirExists
  · rw [if_pos hd] at h
    cases hlk : fs.lookup n with
    | none => rw [hlk] at h; exact absurd h (by simp)
    | some g =>
      rw [hlk] at h
      simp only [StatResult.ok.injEq] at h
      exact ⟨congrArg some h, hd⟩
  · rw [if_neg hd] at h
    exact absurd h (by simp)

lemma openNew_noFail_spec (env : OsEnv) (now : Time) (s : World)
    (hmk : env.mkdirFails = false) (_hst : env.statFails = false)
    (hrn : env.renameFails = false) (hcr : env.createFails = false) :
    (openNew env now s).1 = .ok () ∧
    (openNew env now s).2.w = { s.w with fileOpen := true, size := 0 } ∧
    (∃ m, (openNew env now s).2.fs.lookup s.w.filename = some ⟨s.w.filename, [], m⟩) ∧
    (openNew env now s).2.fs.dirExists = true := by
  unfold openNew
  rw [hmk]
  simp only [Bool.false_eq_true, if_false]
  split
  · -- os.Stat found the live file: rename it away, then create fresh
    rename_i info _hstat
    rw [hrn, hcr]
    simp only [Bool.false_eq_true, if_false]
    by_cases hcp : ({ s with fs := { s.fs with dirExists := true } }).w.compress <;>
      [rw [if_pos hcp]; rw [if_neg hcp]] <;>
      exact ⟨by trivial, by trivial, ⟨info.mode, lookup_setFile_self _ _ _ _⟩, by trivial⟩
  · -- no live file (or stat failed): just create fresh
    rw [hcr]
    simp only [Bool.false_eq_true, if_false]
    exact ⟨by trivial, by trivial, ⟨_, lookup_setFile_self _ _ _ _⟩, by trivial⟩

lemma rotate_noFail_spec (env : OsEnv) (now : Time) (s : World)
    (hmk : env.mkdirFails = false) (hst : env.statFails = false)
    (hrn : env.renameFails = false) (hcr : env.createFails = false) :
    (rotate env now s).1 = .ok () ∧
    (rotate env now s).2.w = { s.w with fileOpen := true, size := 0 } ∧
    (∃ m, (rotate env now s).2.fs.lookup s.w.filename = some ⟨s.w.filename, [], m⟩) ∧
    (rotate env now s).2.fs.dirExists = true := by
  obtain ⟨h1, h2, h3, h4⟩ := openNew_noFail_spec env now (closeW s) hmk hst hrn hcr
  unfold rotate
  dsimp only
  cases hcase : openNew env now (closeW s) with
  | mk r s2 =>
    rw [hcase] at h1 h2 h3 h4
    simp only at h1 h2 h3 h4
    rw [h1]
    have hname : s2.w.filename = s.w.filename := by rw [h2]; rfl
    have hself : s2.w.timeFromName s2.w.filename s2.w.pfxAndExt.1 s2.w.pfxAndExt.2 = none :=
      timeFromName_self_none s2.w
    refine ⟨rfl, ?_, ?_, ?_⟩
    · show (mill env now s2).w = _
      rw [mill_w, h2]
      rfl
    · obtain ⟨m, hm⟩ := h3
      refine ⟨m, ?_⟩
      show (mill env now s2).fs.lookup s.w.filename = _
      rw [← hname]
      rw [mill_lookup_unparsed env now s2 s2.w.filename hself]
      rw [hname]
      exact hm
    · show (mill env now s2).fs.dirExists = true
      rw [mill_dirExists]
      exact h4

lemma openExistingOrNew_noFail_spec (env : OsEnv) (now : Time) (writeLen : Nat) (s : World)
    (hmk : env.mkdirFails = false) (hst : env.statFails = false)
    (hrn : env.renameFails = false) (hcr : env.createFails = false)
    (happ : env.appendOpenFails = false) :
    (openExistingOrNew env now writeLen s).1 = .ok () ∧
    (openExistingOrNew env now writeLen s).2.w
      = { s.w with fileOpen := true, size := (openExistingOrNew env now writeLen s).2.w.size } ∧
    (∃ f, (openExistingOrNew env now writeLen s).2.fs.lookup s.w.filename = some f ∧
      (f.contents.length : Int) = (openExistingOrNew env now writeLen s).2.w.size) ∧
    ((openExistingOrNew env now writeLen s).2.w.size = 0 ∨
      (openExistingOrNew env now writeLen s).2.w.size + (writeLen : Int) < s.w.maxSize) := by
  have hw1 : (mill env now s).w = s.w := mill_w env now s
  unfold openExistingOrNew
  dsimp only
  cases hstat : osStat env (mill env now s).fs (mill env now s).w.filename with
  | notExist =>
    obtain ⟨o1, o2, o3, o4⟩ := openNew_noFail_spec env now (mill env now s) hmk hst hrn hcr
    rw [hw1] at o2 o3
    refine ⟨o1, ?_, ?_, ?_⟩
    · rw [o2]
      try rfl
    · obtain ⟨m, hm⟩ := o3
      exact ⟨⟨s.w.filename, [], m⟩, hm, by rw [o2]; try rfl⟩
    · left
      rw [o2]
      try rfl
  | otherError => exact absurd hstat (osStat_ne_otherError env _ _ hst)
  | ok info =>
    dsimp only
    by_cases hsz : (mill env now s).w.maxSize ≤ (info.contents.length : Int) + (writeLen : Int)
    · rw [if_pos hsz]
      obtain ⟨o1, o2, o3, o4⟩ := rotate_noFail_spec env now (mill env now s) hmk hst hrn hcr
      rw [hw1] at o2 o3
      refine ⟨o1, ?_, ?_, ?_⟩
      · rw [o2]
        try rfl
      · obtain ⟨m, hm⟩ := o3
        exact ⟨⟨s.w.filename, [], m⟩, hm, by rw [o2]; try rfl⟩
      · left
        rw [o2]
        try rfl
    · rw [if_neg hsz, happ]
      simp only [Bool.false_eq_true, if_false]
      obtain ⟨hlk, _⟩ := osStat_ok_lookup env _ _ info hst hstat
      rw [hw1] at hlk hsz
      refine ⟨by trivial, by rw [hw1], ⟨info, hlk, rfl⟩, Or.inr ?_⟩
      show (info.contents.length : Int) + (writeLen : Int) < s.w.maxSize
      omega

lemma lookup_append_self (fs : FS) (n : GoStr) (f : DirFile) (p : GoStr)
    (h : fs.lookup n = some f) :
    (fs.append n p).lookup n = some ⟨n, f.contents ++ p, f.mode⟩ := by
  unfold FS.append
  rw [h]
  exact lookup_setFile_self _ _ _ _

/-- The writer keeps its byte count in sync with the active file: when a
handle is open, the file exists and its size equals `w.size`. -/
def sizeOk (s : World) : Prop :=
  s.w.fileOpen = true →
    ∃ f, s.fs.lookup s.w.filename = some f ∧ (f.contents.length : Int) = s.w.size

/-- One successful `Write` under a healthy OS: all bytes land, the handle
is open, configuration is unchanged, the active file's size equals the
tracked size, and that size respects the threshold. -/
lemma Write_noFail_step (env : OsEnv) (now : Time) (p : GoStr) (s : World)
    (hmk : env.mkdirFails = false) (hst : env.statFails = false)
    (hrn : env.renameFails = false) (hcr : env.createFails = false)
    (happ : env.appendOpenFails = false)
    (hp : (p.length : Int) ≤ s.w.maxSize) (hs : sizeOk s) :
    (Write env now p s).1 = (p.length, none) ∧
    (Write env now p s).2.w.fileOpen = true ∧
    sameConfig s.w (Write env now p s).2.w ∧
    (∃ f, (Write env now p s).2.fs.lookup s.w.filename = some f ∧
      (f.contents.length : Int) = (Write env now p s).2.w.size) ∧
    (Write env now p s).2.w.size ≤ s.w.maxSize := by
  unfold Write
  dsimp only
  rw [if_neg (by omega)]
  by_cases hopen : s.w.fileOpen = true
  · -- the handle is already open: no reopening
    rw [if_neg (by simp [hopen])]
    dsimp only
    by_cases hsz : s.w.maxSize < s.w.size + (p.length : Int)
    · -- threshold crossed: rotate, then append into the fresh file
      rw [if_pos hsz]
      obtain ⟨r1, r2, r3, r4⟩ := rotate_noFail_spec env now s hmk hst hrn hcr
      cases hcase : rotate env now s with
      | mk r s2 =>
        rw [hcase] at r1 r2 r3 r4
        simp only at r1 r2 r3 r4
        rw [r1]
        dsimp only
        obtain ⟨m, hm⟩ := r3
        have hfn : s2.w.filename = s.w.filename := by rw [r2]
        refine ⟨rfl, ?_, ?_, ?_, ?_⟩
        · show ({ s2.w with size := s2.w.size + (p.length : Int) }).fileOpen = true
          rw [r2]
        · exact ⟨(show s2.w.filename = s.w.filename by rw [r2]; try rfl),
            (show s2.w.maxSize = s.w.maxSize by rw [r2]; try rfl),
            (show s2.w.maxAge = s.w.maxAge by rw [r2]; try rfl),
            (show s2.w.maxBackups = s.w.maxBackups by rw [r2]; try rfl),
            (show s2.w.compress = s.w.compress by rw [r2]; try rfl)⟩
        · refine ⟨⟨s.w.filename, [] ++ p, m⟩, ?_, ?_⟩
          · show (s2.fs.append s2.w.filename p).lookup s.w.filename = _
            rw [hfn, lookup_append_self s2.fs s.w.filename ⟨s.w.filename, [], m⟩ p hm]
          · show (([] ++ p : GoStr).length : Int) = s2.w.size + (p.length : Int)
            have : s2.w.size = 0 := by rw [r2]
            rw [this]
            simp
        · show s2.w.size + (p.length : Int) ≤ s.w.maxSize
          have : s2.w.size = 0 := by rw [r2]
          omega
    · -- room left: plain append
      rw [if_neg hsz]
      obtain ⟨f, hf, hflen⟩ := hs hopen
      refine ⟨rfl, hopen, ⟨rfl, rfl, rfl, rfl, rfl⟩, ?_, ?_⟩
      · exact ⟨⟨s.w.filename, f.contents ++ p, f.mode⟩,
          lookup_append_self s.fs s.w.filename f p hf, by simp; omega⟩
      · show s.w.size + (p.length : Int) ≤ s.w.maxSize
        omega
  · -- no handle: open (possibly adopting or rotating), then append
    rw [if_pos (by simpa using hopen)]
    obtain ⟨o1, o2, o3, o4⟩ :=
      openExistingOrNew_noFail_spec env now p.length s hmk hst hrn hcr happ
    cases hcase : openExistingOrNew env now p.length s with
    | mk r s1 =>
      rw [hcase] at o1 o2 o3 o4
      simp only at o1 o2 o3 o4
      rw [o1]
      dsimp only
      have hms : s1.w.maxSize = s.w.maxSize := by rw [o2]
      have hfn : s1.w.filename = s.w.filename := by rw [o2]
      have hof : s1.w.fileOpen = true := by rw [o2]
      have hcond : ¬ (s1.w.maxSize < s1.w.size + (p.length : Int)) := by
        rw [hms]
        rcases o4 with h0 | h0
        · rw [h0]; omega
        · omega
      rw [if_neg hcond]
      obtain ⟨f, hf, hflen⟩ := o3
      refine ⟨rfl, hof, ?_, ?_, ?_⟩
      · exact ⟨(show s1.w.filename = s.w.filename by rw [o2]; try rfl),
          (show s1.w.maxSize = s.w.maxSize by rw [o2]; try rfl),
          (show s1.w.maxAge = s.w.maxAge by rw [o2]; try rfl),
          (show s1.w.maxBackups = s.w.maxBackups by rw [o2]; try rfl),
          (show s1.w.compress = s.w.compress by rw [o2]; try rfl)⟩
      · refine ⟨⟨s.w.filename, f.contents ++ p, f.mode⟩, ?_, ?_⟩
        · show (s1.fs.append s1.w.filename p).lookup s.w.filename = _
          rw [hfn, lookup_append_self s1.fs s.w.filename f p hf]
        · show ((f.contents ++ p : GoStr).length : Int) = s1.w.size + (p.length : Int)
          simp
          omega
      · show s1.w.size + (p.length : Int) ≤ s.w.maxSize
        rcases o4 with h0 | h0
        · rw [h0]; omega
        · omega

lemma writeAll_cons (env : OsEnv) (now : Time) (p : GoStr) (l : List GoStr) (s : World) :
    writeAll env now (p :: l) s = writeAll env now l (Write env now p s).2 := rfl

/-- The facts a successful step yields, re-based to the new state. -/
lemma Write_noFail_post (now : Time) (p : GoStr) (s : World)
    (hp : (p.length : Int) ≤ s.w.maxSize) (hs : sizeOk s) :
    sizeOk (Write OsEnv.noFail now p s).2 ∧
    (Write OsEnv.noFail now p s).2.w.maxSize = s.w.maxSize ∧
    (Write OsEnv.noFail now p s).2.w.fileOpen = true ∧
    (Write OsEnv.noFail now p s).2.w.size ≤ s.w.maxSize := by
  obtain ⟨h1, h2, hcfg, h4, h5⟩ :=
    Write_noFail_step OsEnv.noFail now p s rfl rfl rfl rfl rfl hp hs
  obtain ⟨hfn, hms, _, _, _⟩ := hcfg
  refine ⟨?_, hms, h2, h5⟩
  intro _
  obtain ⟨f, hf, hflen⟩ := h4
  exact ⟨f, by rw [hfn]; exact hf, hflen⟩

/-- The per-step facts of the size invariant, for every prefix of a write
sequence. -/
lemma writeAll_size_invariant (now : Time) (ps : List GoStr) (s : World)
    (hs : sizeOk s) (hb : ∀ q ∈ ps, (q.length : Int) ≤ s.w.maxSize) :
    ∀ i < ps.length,
      ((writeAll OsEnv.noFail now (ps.take (i + 1)) s).w.fileOpen = true) ∧
      (∃ f, (writeAll OsEnv.noFail now (ps.take (i + 1)) s).fs.lookup
          (writeAll OsEnv.noFail now (ps.take (i + 1)) s).w.filename = some f ∧
        (f.contents.length : Int) = (writeAll OsEnv.noFail now (ps.take (i + 1)) s).w.size) ∧
      (writeAll OsEnv.noFail now (ps.take (i + 1)) s).w.size
        ≤ (writeAll OsEnv.noFail now (ps.take (i + 1)) s).w.maxSize := by
  induction ps generalizing s with
  | nil => intro i hi; exact absurd hi (by simp)
  | cons p ps ih =>
    have hp : (p.length : Int) ≤ s.w.maxSize := hb p (List.mem_cons_self p ps)
    obtain ⟨q1, q2, q3, q4⟩ := Write_noFail_post now p s hp hs
    obtain ⟨h1, h2, hcfg, h4, h5⟩ :=
      Write_noFail_step OsEnv.noFail now p s rfl rfl rfl rfl rfl hp hs
    obtain ⟨hfn, hms, _, _, _⟩ := hcfg
    intro i hi
    cases i with
    | zero =>
      rw [List.take_succ_cons, List.take_zero]
      refine ⟨h2, ?_, ?_⟩
      · show ∃ f, (Write OsEnv.noFail now p s).2.fs.lookup
            (Write OsEnv.noFail now p s).2.w.filename = some f ∧ _
        obtain ⟨f, hf, hflen⟩ := h4
        exact ⟨f, by rw [hfn]; exact hf, hflen⟩
      · show (Write OsEnv.noFail now p s).2.w.size ≤ (Write OsEnv.noFail now p s).2.w.maxSize
        rw [hms]
        exact h5
    | succ i =>
      rw [List.take_succ_cons, writeAll_cons]
      refine ih (Write OsEnv.noFail now p s).2 q1 ?_ i (by simpa using hi)
      intro q hq
      rw [q2]
      exact hb q (List.mem_cons_of_mem p hq)

/-! ## Concrete test fixtures -/

/-- The name `app.log`, the running example file name. -/
def appLog : GoStr := str "app.log"

/-- A sample rotation instant: 2026-01-02, midnight UTC. -/
def now26 : Time := ⟨⟨2026, 1, 2⟩, 0⟩

/-- A writer over `app.log` whose `maxSize` field is set directly in
bytes (the claims speak of `maxSizeBytes`, the writer's internal
threshold). -/
def wBytes (maxSize maxAge maxBackups : Int) : RotateWriter :=
  { filename := appLog, maxSize := maxSize, maxAge := maxAge,
    maxBackups := maxBackups, compress := false, fileOpen := false, size := 0 }

/-- A fresh world: nothing on disk yet. -/
def emptyWorld (w : RotateWriter) : World :=
  { w := w, fs := { dirExists := false, files := [] }, scheduled := [] }

/-- Ten copies of a byte, a convenient threshold-filling write. -/
def ten (c : Char) : GoStr := List.replicate 10 c

/-! ## The claims -/

/-- C4: for every sequence of writes each of length at most
`maxSizeBytes`, after each successful `Write` the writer's `currentSize`
equals the active file's size (the writer starts from any state whose
open handle, if any, is in sync — in particular from the fresh state) and
never exceeds `maxSizeBytes`.  Under a healthy OS every such write
succeeds, the handle is open afterwards, the on-disk size of the active
file equals `size`, and `size ≤ maxSize`. -/
theorem C4_size_invariant (now : Time) (ps : List GoStr) (s : World)
    (hs : sizeOk s) (hb : ∀ q ∈ ps, (q.length : Int) ≤ s.w.maxSize) :
    ∀ i < ps.length,
      ((writeAll OsEnv.noFail now (ps.take (i + 1)) s).w.fileOpen = true) ∧
      (∃ f, (writeAll OsEnv.noFail now (ps.take (i + 1)) s).fs.lookup
          (writeAll OsEnv.noFail now (ps.take (i + 1)) s).w.filename = some f ∧
        (f.contents.length : Int) = (writeAll OsEnv.noFail now (ps.take (i + 1)) s).w.size) ∧
      (writeAll OsEnv.noFail now (ps.take (i + 1)) s).w.size
        ≤ (writeAll OsEnv.noFail now (ps.take (i + 1)) s).w.maxSize :=
  writeAll_size_invariant now ps s hs hb

/-- Witness for C4: the state after the third write of the worked
example, against a 10-byte threshold. -/
theorem C4_size_invariant_witness :
    ((writeAll OsEnv.noFail now26
        ([str "abcde", str "fghij", str "k"].take (2 + 1)) (emptyWorld (wBytes 10 0 0))).w.fileOpen = true) ∧
    (∃ f, (writeAll OsEnv.noFail now26
        ([str "abcde", str "fghij", str "k"].take (2 + 1)) (emptyWorld (wBytes 10 0 0))).fs.lookup
        (writeAll OsEnv.noFail now26
          ([str "abcde", str "fghij", str "k"].take (2 + 1)) (emptyWorld (wBytes 10 0 0))).w.filename = some f ∧
      (f.contents.length : Int) = (writeAll OsEnv.noFail now26
        ([str "abcde", str "fghij", str "k"].take (2 + 1)) (emptyWorld (wBytes 10 0 0))).w.size) ∧
    (writeAll OsEnv.noFail now26
        ([str "abcde", str "fghij", str "k"].take (2 + 1)) (emptyWorld (wBytes 10 0 0))).w.size
      ≤ (writeAll OsEnv.noFail now26
        ([str "abcde", str "fghij", str "k"].take (2 + 1)) (emptyWorld (wBytes 10 0 0))).w.maxSize :=
  C4_size_invariant now26 [str "abcde", str "fghij", str "k"] (emptyWorld (wBytes 10 0 0))
    (fun h => absurd h (by decide)) (by decide) 2 (by decide)

/-- C6: a write longer than `maxSizeBytes` is rejected with the
oversized-write error, reports 0 bytes written, and leaves the whole
world (writer state, directory contents, scheduled compressions)
untouched — in particular, when no handle is open, none is opened and no
file is created. -/
theorem C6_oversized_rejection (env : OsEnv) (now : Time) (p : GoStr) (s : World)
    (h : s.w.maxSize < (p.length : Int)) :
    Write env now p s = ((0, some (.oversized (p.length : Int) s.w.maxSize)), s) := by
  unfold Write
  dsimp only
  rw [if_pos h]

/-- Witness for C6: a 3-byte write against a 2-byte threshold. -/
theorem C6_oversized_rejection_witness :
    (wBytes 2 0 0).maxSize < ((str "abc").length : Int) ∧
    Write OsEnv.noFail now26 (str "abc") (emptyWorld (wBytes 2 0 0))
      = ((0, some (.oversized 3 2)), emptyWorld (wBytes 2 0 0)) :=
  ⟨by decide, C6_oversized_rejection OsEnv.noFail now26 (str "abc")
    (emptyWorld (wBytes 2 0 0)) (by decide)⟩

/-- C8 counterexample: constructing a writer with `maxSize = 0` is
accepted — `NewRotateWriter` performs no validation and cannot report an
error — and the first write then fails with the oversized-write error
(`write length exceeds maximum file size`), not a configuration error. -/
theorem C8_counterexample :
    (NewRotateWriter appLog 0 7 3 false).maxSize = 0 ∧
    (Write OsEnv.noFail now26 (str "a")
        { w := NewRotateWriter appLog 0 7 3 false,
          fs := { dirExists := true, files := [] }, scheduled := [] }).1
      = (0, some (.oversized 1 0)) := by
  constructor
  · rfl
  · rfl

/-- C8 (amended): `NewRotateWriter` accepts any `maxSize`, including zero
and negative values, without any error; the misconfiguration surfaces
only on the first nonempty `Write`, as the oversized-write error, never
as a distinct configuration error. -/
theorem C8_no_construction_validation (filename : GoStr) (ms ma mb : Int) (c : Bool)
    (env : OsEnv) (now : Time) (fs : FS) (sched : List GoStr) (p : GoStr)
    (hms : ms ≤ 0) (hp : p ≠ []) :
    (NewRotateWriter filename ms ma mb c).maxSize ≤ 0 ∧
    (Write env now p { w := NewRotateWriter filename ms ma mb c, fs := fs, scheduled := sched }).1
      = (0, some (.oversized (p.length : Int) (ms * 1024 * 1024))) := by
  have hlen : 1 ≤ p.length := List.length_pos.mpr hp
  have hneg : ms * 1024 * 1024 ≤ 0 := by omega
  constructor
  · show ms * 1024 * 1024 ≤ 0
    exact hneg
  · unfold Write
    dsimp only
    rw [if_pos (by show ms * 1024 * 1024 < (p.length : Int); omega)]
    rfl

/-- Witness for C8's amended statement. -/
theorem C8_no_construction_validation_witness :
    (0 : Int) ≤ 0 ∧ str "a" ≠ [] ∧
    (NewRotateWriter appLog 0 7 3 false).maxSize ≤ 0 ∧
    (Write OsEnv.noFail now26 (str "a")
        { w := NewRotateWriter appLog 0 7 3 false,
          fs := { dirExists := true, files := [] }, scheduled := [] }).1
      = (0, some (.oversized 1 0)) := by
  refine ⟨le_refl 0, by decide, ?_⟩
  have h := C8_no_construction_validation appLog 0 7 3 false OsEnv.noFail now26
    { dirExists := true, files := [] } [] (str "a") (le_refl 0) (by decide)
  exact h

lemma backupName_is_candidate (env : OsEnv) (fs : FS) (name : GoStr) (t : Time) :
    ∃ i, backupName env fs name t = backupCandidate name t.date i := by
  unfold backupName
  generalize fs.files.length + 1 = fuel
  generalize 1 = start
  induction fuel generalizing start with
  | zero => exact ⟨start, rfl⟩
  | succ fuel ih =>
    unfold scanBackupIndex
    cases osStat env fs (backupCandidate name t.date start) with
    | notExist => exact ⟨start, rfl⟩
    | ok f => exact ih (start + 1)
    | otherError => exact ih (start + 1)

/-- C1: the round trip between the backup naming rule and the sweep's
filename parser FAILS in the code: for every writer, directory state and
rotation instant (with real month/day values), the name `backupName`
produces is rejected by `timeFromName` with the sweep's own
prefix/extension — the prefix already swallows the dash, so the parser
joins month-day-index as if it were a date and `time.Parse` fails.  The
sweep therefore ignores every backup the writer creates. -/
theorem C1_roundtrip_fails (w : RotateWriter) (env : OsEnv) (fs : FS) (t : Time)
    (hm : t.date.m ≤ 99) (hd : t.date.d ≤ 99) :
    w.timeFromName (backupName env fs w.filename t) w.pfxAndExt.1 w.pfxAndExt.2 = none := by
  obtain ⟨i, hi⟩ := backupName_is_candidate env fs w.filename t
  rw [hi]
  exact timeFromName_backupCandidate_none w w.filename t.date i hm hd

/-- Witness for C1: the very first backup of `app.log` on 2026-01-02. -/
theorem C1_roundtrip_fails_witness :
    now26.date.m ≤ 99 ∧ now26.date.d ≤ 99 ∧
    (wBytes 10 0 2).timeFromName
      (backupName OsEnv.noFail { dirExists := true, files := [] } (wBytes 10 0 2).filename now26)
      (wBytes 10 0 2).pfxAndExt.1 (wBytes 10 0 2).pfxAndExt.2 = none :=
  ⟨by decide, by decide,
    C1_roundtrip_fails (wBytes 10 0 2) OsEnv.noFail { dirExists := true, files := [] } now26
      (by decide) (by decide)⟩

/-- C2: the retention-by-count scenario from the spec, evaluated on the
code.  With `maxBackups = 2`, six threshold-filling writes perform five
rotations within one day; the claim says exactly 2 backups remain, but
in fact all 5 survive (the sweep's parser rejects every backup name), and
in particular the oldest backup is still present. -/
theorem C2_retention_by_count_fails :
    ((writeAll OsEnv.noFail now26 [ten 'a', ten 'b', ten 'c', ten 'd', ten 'e', ten 'f']
        (emptyWorld (wBytes 10 0 2))).fs.files.filter
          (fun f => ¬ f.name = appLog)).length = 5 ∧
    ¬ (writeAll OsEnv.noFail now26 [ten 'a', ten 'b', ten 'c', ten 'd', ten 'e', ten 'f']
        (emptyWorld (wBytes 10 0 2))).fs.lookup (str "app-2026-01-02-1.log") = none := by
  decide

/-- C3: the retention-by-age scenario from the spec, evaluated on the
code.  `maxAge = 1`, the directory holds a backup name-dated 3 days
before the sweep instant and one dated the sweep day; the claim says the
old one is deleted, but the sweep deletes nothing at all (its parser
rejects both names), leaving the whole world unchanged. -/
theorem C3_retention_by_age_fails :
    mill OsEnv.noFail ⟨⟨2026, 1, 8⟩, 3600⟩
        { w := wBytes 10 1 0,
          fs := { dirExists := true,
                  files := [⟨appLog, [], 420⟩,
                            ⟨str "app-2026-01-05-1.log", str "old", 420⟩,
                            ⟨str "app-2026-01-08-1.log", str "new", 420⟩] },
          scheduled := [] }
      = { w := wBytes 10 1 0,
          fs := { dirExists := true,
                  files := [⟨appLog, [], 420⟩,
                            ⟨str "app-2026-01-05-1.log", str "old", 420⟩,
                            ⟨str "app-2026-01-08-1.log", str "new", 420⟩] },
          scheduled := [] } := by
  decide

lemma osStat_notExist_lookup (env : OsEnv) (fs : FS) (n : GoStr)
    (hst : env.statFails = false) (hdir : fs.dirExists = true)
    (h : osStat env fs n = .notExist) : fs.lookup n = none := by
  unfold osStat at h
  rw [hst] at h
  simp only [Bool.false_eq_true, if_false, hdir, if_true] at h
  cases hlk : fs.lookup n with
  | none => rfl
  | some f => rw [hlk] at h; exact absurd h (by simp)

/-- C7: the backup naming rule.  (a) With a truthful `stat`, `backupName`
returns `<stem>-<YYYY-MM-DD>-<index><ext>` (the `backupCandidate` shape,
with stem and extension split at the last dot of the original base name
and the date taken from the rotation instant) for the least index
`i ≥ 1` not already present in the directory — so backup names never
collide with existing files.  (b) Concretely, rotating twice within one
calendar day yields backups with index 1 then index 2, holding the
rotated-out contents. -/
theorem C7_backup_naming :
    (∀ (env : OsEnv) (fs : FS) (name : GoStr) (t : Time), env.statFails = false →
      ∃ i, 1 ≤ i ∧ backupName env fs name t = backupCandidate name t.date i ∧
        osStat env fs (backupCandidate name t.date i) = .notExist ∧
        (fs.dirExists = true → fs.lookup (backupCandidate name t.date i) = none) ∧
        ∀ j, 1 ≤ j → j < i → ¬ osStat env fs (backupCandidate name t.date j) = .notExist) ∧
    ((writeAll OsEnv.noFail now26 [ten 'a', ten 'b', ten 'c']
        (emptyWorld (wBytes 10 0 0))).fs.lookup (str "app-2026-01-02-1.log")
      = some ⟨str "app-2026-01-02-1.log", ten 'a', 420⟩ ∧
     (writeAll OsEnv.noFail now26 [ten 'a', ten 'b', ten 'c']
        (emptyWorld (wBytes 10 0 0))).fs.lookup (str "app-2026-01-02-2.log")
      = some ⟨str "app-2026-01-02-2.log", ten 'b', 420⟩ ∧
     str "app-2026-01-02-1.log" = backupCandidate appLog ⟨2026, 1, 2⟩ 1 ∧
     str "app-2026-01-02-2.log" = backupCandidate appLog ⟨2026, 1, 2⟩ 2) := by
  constructor
  · intro env fs name t hst
    obtain ⟨i, h1, h2, h3, h4⟩ := backupName_least env fs name t hst
    exact ⟨i, h1, h2, h3,
      fun hdir => osStat_notExist_lookup env fs _ hst hdir h3, h4⟩
  · refine ⟨by decide, by decide, by decide, by decide⟩

/-- Witness for C7's general part: in an empty directory the first free
index is 1. -/
theorem C7_backup_naming_witness :
    backupName OsEnv.noFail { dirExists := true, files := [] } appLog now26
      = backupCandidate appLog ⟨2026, 1, 2⟩ 1 := by
  obtain ⟨i, h1, h2, h3, _h4, h5⟩ :=
    C7_backup_naming.1 OsEnv.noFail { dirExists := true, files := [] } appLog now26 rfl
  have hi : i = 1 := by
    by_contra hne
    exact h5 1 (le_refl 1) (by omega) (by decide)
  rw [hi] at h2
  exact h2

/-- Directory creation fails, everything else is healthy. -/
def envMkdirFail : OsEnv := { OsEnv.noFail with mkdirFails := true }

/-- Renaming the live file fails, everything else is healthy. -/
def envRenameFail : OsEnv := { OsEnv.noFail with renameFails := true }

/-- Creating the fresh file fails, everything else is healthy. -/
def envCreateFail : OsEnv := { OsEnv.noFail with createFails := true }

/-- C9: when a write triggers rotation and any rotation step fails —
directory creation, the rename of the live file, or creation of the new
file — the error is surfaced to the `Write` caller (with 0 bytes
written) and the writer is left with no open handle, so the next `Write`
goes through the open-from-scratch path. -/
theorem C9_rotation_failure (now : Time) (p : GoStr) (s : World) (f : DirFile)
    (hopen : s.w.fileOpen = true)
    (hlk : s.fs.lookup s.w.filename = some f)
    (hp : (p.length : Int) ≤ s.w.maxSize)
    (hover : s.w.maxSize < s.w.size + (p.length : Int)) :
    (Write envMkdirFail now p s = ((0, some .mkdirError), closeW s)) ∧
    ((Write envRenameFail now p s).1 = (0, some .renameError) ∧
      (Write envRenameFail now p s).2.w.fileOpen = false) ∧
    ((Write envCreateFail now p s).1 = (0, some .openNewError) ∧
      (Write envCreateFail now p s).2.w.fileOpen = false) := by
  have hstatR : osStat envRenameFail ⟨true, s.fs.files⟩ s.w.filename = .ok f := by
    unfold osStat
    rw [if_neg (by decide)]
    show (match ((⟨true, s.fs.files⟩ : FS).lookup s.w.filename) with
      | some f => StatResult.ok f | none => StatResult.notExist) = _
    show (match s.fs.lookup s.w.filename with
      | some f => StatResult.ok f | none => StatResult.notExist) = _
    rw [hlk]
  have hstatC : osStat envCreateFail ⟨true, s.fs.files⟩ s.w.filename = .ok f := by
    unfold osStat
    rw [if_neg (by decide)]
    show (match ((⟨true, s.fs.files⟩ : FS).lookup s.w.filename) with
      | some f => StatResult.ok f | none => StatResult.notExist) = _
    show (match s.fs.lookup s.w.filename with
      | some f => StatResult.ok f | none => StatResult.notExist) = _
    rw [hlk]
  refine ⟨?_, ?_, ?_⟩
  · unfold Write
    dsimp only
    rw [if_neg (by omega), if_neg (by simp [hopen])]
    dsimp only
    rw [if_pos hover]
    unfold rotate openNew
    dsimp only [closeW]
    rw [if_pos (by decide)]
  · unfold Write
    dsimp only
    rw [if_neg (by omega), if_neg (by simp [hopen])]
    dsimp only
    rw [if_pos hover]
    unfold rotate openNew
    dsimp only [closeW]
    rw [if_neg (by decide)]
    rw [hstatR]
    dsimp only
    rw [if_pos (by decide)]
    exact ⟨rfl, rfl⟩
  · unfold Write
    dsimp only
    rw [if_neg (by omega), if_neg (by simp [hopen])]
    dsimp only
    rw [if_pos hover]
    unfold rotate openNew
    dsimp only [closeW]
    rw [if_neg (by decide)]
    rw [hstatC]
    dsimp only
    rw [if_neg (by decide)]
    by_cases hcp : s.w.compress = true
    · rw [if_pos hcp, if_pos (by decide)]
      exact ⟨rfl, rfl⟩
    · rw [if_neg hcp, if_pos (by decide)]
      exact ⟨rfl, rfl⟩

/-- A world with an open handle on a full 10-byte `app.log`. -/
def c9World : World :=
  { w := { wBytes 10 0 0 with fileOpen := true, size := 10 },
    fs := { dirExists := true, files := [⟨appLog, ten 'a', 420⟩] }, scheduled := [] }

/-- Witness for C9: a 3-byte write against the full file, under each of
the three failing environments. -/
theorem C9_rotation_failure_witness :
    (Write envMkdirFail now26 (str "xyz") c9World = ((0, some .mkdirError), closeW c9World)) ∧
    ((Write envRenameFail now26 (str "xyz") c9World).1 = (0, some .renameError) ∧
      (Write envRenameFail now26 (str "xyz") c9World).2.w.fileOpen = false) ∧
    ((Write envCreateFail now26 (str "xyz") c9World).1 = (0, some .openNewError) ∧
      (Write envCreateFail now26 (str "xyz") c9World).2.w.fileOpen = false) :=
  C9_rotation_failure now26 (str "xyz") c9World ⟨appLog, ten 'a', 420⟩ (by decide)
    (by decide) (by decide) (by decide)

/-- Opening the live file in append mode fails, everything else is
healthy. -/
def envAppendFail : OsEnv := { OsEnv.noFail with appendOpenFails := true }

/-- C10: with no open handle, an existing active file small enough to
accept the write, and a failing append-mode open, `Write` silently falls
back to the fresh-file path: the old contents are renamed to a backup
(whose compression is scheduled when enabled), a fresh active file is
created, the write lands in it and succeeds.  The failed open is never
surfaced. -/
theorem C10_append_open_failure (now : Time) (p : GoStr) (s : World) (f : DirFile)
    (hclosed : s.w.fileOpen = false)
    (hdir : s.fs.dirExists = true)
    (hnp : noParse s)
    (hlk : s.fs.lookup s.w.filename = some f)
    (hsz : (f.contents.length : Int) + (p.length : Int) < s.w.maxSize) :
    (Write envAppendFail now p s).1 = (p.length, none) ∧
    (Write envAppendFail now p s).2.fs.lookup s.w.filename
      = some ⟨s.w.filename, p, f.mode⟩ ∧
    (Write envAppendFail now p s).2.fs.lookup (backupName envAppendFail s.fs s.w.filename now)
      = some ⟨backupName envAppendFail s.fs s.w.filename now, f.contents, f.mode⟩ ∧
    (s.w.compress = true →
      backupName envAppendFail s.fs s.w.filename now ∈ (Write envAppendFail now p s).2.scheduled) := by
  have hlen0 : (0 : Int) ≤ (f.contents.length : Int) := by positivity
  have hmill : mill envAppendFail now s = s := mill_of_noParse envAppendFail now s hnp
  have hfse : ({ dirExists := true, files := s.fs.files } : FS) = s.fs := by
    rw [← hdir]
  have hstat : osStat envAppendFail s.fs s.w.filename = .ok f := by
    unfold osStat
    rw [if_neg (by decide), hdir]
    show (match s.fs.lookup s.w.filename with
      | some f => StatResult.ok f | none => StatResult.notExist) = _
    rw [hlk]
  -- the backup name is a genuinely new name, distinct from the live file
  obtain ⟨i, hi1, hi2, hi3, hi4⟩ := backupName_least envAppendFail s.fs s.w.filename now rfl
  have hbfree : s.fs.lookup (backupName envAppendFail s.fs s.w.filename now) = none := by
    rw [hi2]
    exact osStat_notExist_lookup envAppendFail s.fs _ rfl hdir hi3
  have hbne : ¬ s.w.filename = backupName envAppendFail s.fs s.w.filename now := by
    intro hc
    rw [← hc, hlk] at hbfree
    exact absurd hbfree (by simp)
  unfold Write
  dsimp only
  rw [if_neg (by omega)]
  rw [if_pos (by simp [hclosed])]
  unfold openExistingOrNew
  rw [hmill]
  dsimp only
  rw [hstat]
  dsimp only
  rw [if_neg (by omega), if_pos (by decide)]
  unfold openNew
  rw [if_neg (by decide)]
  dsimp only
  rw [hfse, hstat]
  dsimp only
  rw [if_neg (by decide)]
  by_cases hcp : s.w.compress = true
  · rw [if_pos hcp]
    rw [if_neg (by decide)]
    dsimp only
    rw [if_neg (by omega)]
    refine ⟨rfl, ?_, ?_, ?_⟩
    · show (((((s.fs.remove s.w.filename).setFile
          (backupName envAppendFail s.fs s.w.filename now) f.contents f.mode).setFile
            s.w.filename [] f.mode)).append s.w.filename p).lookup s.w.filename = _
      rw [lookup_append_self _ _ ⟨s.w.filename, [], f.mode⟩ p (lookup_setFile_self _ _ _ _)]
      rfl
    · show (((((s.fs.remove s.w.filename).setFile
          (backupName envAppendFail s.fs s.w.filename now) f.contents f.mode).setFile
            s.w.filename [] f.mode)).append s.w.filename p).lookup
          (backupName envAppendFail s.fs s.w.filename now) = _
      unfold FS.append
      rw [lookup_setFile_self _ _ _ _]
      rw [lookup_setFile_ne _ _ _ _ _ (fun hc => hbne hc.symm),
        lookup_setFile_ne _ _ _ _ _ (fun hc => hbne hc.symm),
        lookup_setFile_self _ _ _ _]
    · intro _
      show backupName envAppendFail s.fs s.w.filename now
        ∈ s.scheduled ++ [backupName envAppendFail s.fs s.w.filename now]
      simp
  · rw [if_neg hcp]
    rw [if_neg (by decide)]
    dsimp only
    rw [if_neg (by omega)]
    refine ⟨rfl, ?_, ?_, ?_⟩
    · show (((((s.fs.remove s.w.filename).setFile
          (backupName envAppendFail s.fs s.w.filename now) f.contents f.mode).setFile
            s.w.filename [] f.mode)).append s.w.filename p).lookup s.w.filename = _
      rw [lookup_append_self _ _ ⟨s.w.filename, [], f.mode⟩ p (lookup_setFile_self _ _ _ _)]
      rfl
    · show (((((s.fs.remove s.w.filename).setFile
          (backupName envAppendFail s.fs s.w.filename now) f.contents f.mode).setFile
            s.w.filename [] f.mode)).append s.w.filename p).lookup
          (backupName envAppendFail s.fs s.w.filename now) = _
      unfold FS.append
      rw [lookup_setFile_self _ _ _ _]
      rw [lookup_setFile_ne _ _ _ _ _ (fun hc => hbne hc.symm),
        lookup_setFile_ne _ _ _ _ _ (fun hc => hbne hc.symm),
        lookup_setFile_self _ _ _ _]
    · intro hcp2
      exact absurd hcp2 hcp

/-- A closed writer over a small `app.log`, with compression enabled. -/
def c10World : World :=
  { w := { filename := appLog, maxSize := 10, maxAge := 0, maxBackups := 0,
           compress := true, fileOpen := false, size := 0 },
    fs := { dirExists := true, files := [⟨appLog, str "abc", 420⟩] }, scheduled := [] }

/-- Witness for C10: a 2-byte write with a failing append open turns
into a rotation and succeeds. -/
theorem C10_append_open_failure_witness :
    (Write envAppendFail now26 (str "xy") c10World).1 = ((str "xy").length, none) ∧
    (Write envAppendFail now26 (str "xy") c10World).2.fs.lookup appLog
      = some ⟨appLog, str "xy", 420⟩ ∧
    (Write envAppendFail now26 (str "xy") c10World).2.fs.lookup
        (backupName envAppendFail c10World.fs appLog now26)
      = some ⟨backupName envAppendFail c10World.fs appLog now26, str "abc", 420⟩ ∧
    backupName envAppendFail c10World.fs appLog now26
      ∈ (Write envAppendFail now26 (str "xy") c10World).2.scheduled :=
  have h := C10_append_open_failure now26 (str "xy") c10World ⟨appLog, str "abc", 420⟩
    (by decide) (by decide) (by decide) (by decide) (by decide)
  ⟨h.1, h.2.1, h.2.2.1, h.2.2.2 (by decide)⟩

/-! ## Counting lemmas for the rotation-effect claim -/

lemma mem_remove_sub (fs : FS) (n : GoStr) :
    ∀ x ∈ (fs.remove n).files, x ∈ fs.files := by
  intro x hx
  exact List.mem_of_mem_filter hx

lemma mem_setFile_cases (fs : FS) (n c : GoStr) (m : Nat) :
    ∀ x ∈ (fs.setFile n c m).files, x ∈ fs.files ∨ x = ⟨n, c, m⟩ := by
  intro x hx
  rcases List.mem_append.mp hx with h | h
  · exact Or.inl (List.mem_of_mem_filter h)
  · simp only [List.mem_singleton] at h
    exact Or.inr h

lemma filter_ne_of_none (l : List DirFile) (n : GoStr)
    (h : ∀ x ∈ l, ¬ x.name = n) : l.filter (fun f => ¬ f.name = n) = l :=
  List.filter_eq_self.mpr (fun a ha => by simpa using h a ha)

lemma length_filter_ne_of_mem (l : List DirFile) (n : GoStr)
    (hnd : (l.map (fun x => x.name)).Nodup) (g : DirFile) (hg : g ∈ l) (hgn : g.name = n) :
    (l.filter (fun f => ¬ f.name = n)).length + 1 = l.length := by
  induction l with
  | nil => cases hg
  | cons a l ih =>
    rw [List.map_cons, List.nodup_cons] at hnd
    by_cases ha : a.name = n
    · rw [List.filter_cons_of_neg (by simpa using ha)]
      have hnone : ∀ x ∈ l, ¬ x.name = n := by
        intro x hx hxn
        apply hnd.1
        rw [ha, ← hxn]
        exact List.mem_map_of_mem _ hx
      rw [filter_ne_of_none l n hnone]
      simp
    · rw [List.filter_cons_of_pos (by simpa using ha)]
      have hgl : g ∈ l := by
        rcases List.mem_cons.mp hg with heq | hmem
        · rw [heq] at hgn; exact absurd hgn ha
        · exact hmem
      have := ih hnd.2 hgl
      simp only [List.length_cons]
      omega

lemma length_setFile (fs : FS) (n c : GoStr) (m : Nat) :
    ((FS.setFile fs n c m).files).length
      = (fs.files.filter (fun f => ¬ f.name = n)).length + 1 := by
  unfold FS.setFile
  simp

/-- A `World` built from explicit components satisfies `noParse` exactly
when every entry's name fails to parse. -/
lemma noParse_mk (w : RotateWriter) (fs : FS) (sched : List GoStr)
    (h : ∀ x ∈ fs.files, w.timeFromName x.name w.pfxAndExt.1 w.pfxAndExt.2 = none) :
    noParse { w := w, fs := fs, scheduled := sched } := h

/-- C5: rotation triggers exactly once per threshold crossing.  (a) In
general: from an open, in-sync writer over a directory it populated
itself, a write of `N ≤ maxSizeBytes` bytes with `size + N > maxSizeBytes`
succeeds in full, moves the old contents to exactly one new backup file
(under `backupName`, preserving the mode), lands the `N` bytes in the
fresh active file, and grows the directory by exactly one file.  (b) The
worked example: `maxSizeBytes = 10`, writes `"abcde"`, `"fghij"`, `"k"`
— the first two land in the active file, the third triggers one
rotation; the backup holds `"abcdefghij"` and the active file `"k"`. -/
theorem C5_rotation_once_per_crossing :
    (∀ (now : Time) (p : GoStr) (s : World) (f : DirFile),
      s.w.fileOpen = true →
      s.fs.dirExists = true →
      s.fs.lookup s.w.filename = some f →
      (f.contents.length : Int) = s.w.size →
      (s.fs.files.map (fun x => x.name)).Nodup →
      noParse s →
      now.date.m ≤ 99 → now.date.d ≤ 99 →
      s.w.maxSize < s.w.size + (p.length : Int) →
      (p.length : Int) ≤ s.w.maxSize →
      (Write OsEnv.noFail now p s).1 = (p.length, none) ∧
      (Write OsEnv.noFail now p s).2.fs.lookup (backupName OsEnv.noFail s.fs s.w.filename now)
        = some ⟨backupName OsEnv.noFail s.fs s.w.filename now, f.contents, f.mode⟩ ∧
      (Write OsEnv.noFail now p s).2.fs.lookup s.w.filename = some ⟨s.w.filename, p, f.mode⟩ ∧
      (Write OsEnv.noFail now p s).2.fs.files.length = s.fs.files.length + 1) ∧
    (writeAll OsEnv.noFail now26 [str "abcde", str "fghij", str "k"] (emptyWorld (wBytes 10 0 0))
      = { w := { wBytes 10 0 0 with fileOpen := true, size := 1 },
          fs := { dirExists := true,
                  files := [⟨str "app-2026-01-02-1.log", str "abcdefghij", 420⟩,
                            ⟨appLog, str "k", 420⟩] },
          scheduled := [] }) := by
  constructor
  · intro now p s f hopen hdir hlk _hflen hnd hnp hm hd hover hp
    have hfse : ({ dirExists := true, files := s.fs.files } : FS) = s.fs := by
      rw [← hdir]
    have hstat : osStat OsEnv.noFail s.fs s.w.filename = .ok f := by
      unfold osStat
      rw [if_neg (by decide), hdir]
      show (match s.fs.lookup s.w.filename with
        | some f => StatResult.ok f | none => StatResult.notExist) = _
      rw [hlk]
    obtain ⟨i, hi1, hi2, hi3, hi4⟩ := backupName_least OsEnv.noFail s.fs s.w.filename now rfl
    have hbfree : s.fs.lookup (backupName OsEnv.noFail s.fs s.w.filename now) = none := by
      rw [hi2]
      exact osStat_notExist_lookup OsEnv.noFail s.fs _ rfl hdir hi3
    have hbne : ¬ s.w.filename = backupName OsEnv.noFail s.fs s.w.filename now := by
      intro hc
      rw [← hc, hlk] at hbfree
      exact absurd hbfree (by simp)
    have hbnone : ∀ x ∈ s.fs.files, ¬ x.name = backupName OsEnv.noFail s.fs s.w.filename now := by
      intro x hx
      have := List.find?_eq_none.mp hbfree x hx
      simpa using this
    -- every name in the post-rotation directory still fails to parse
    have hparse4 : ∀ (w' : RotateWriter), w'.filename = s.w.filename →
        ∀ x ∈ (((s.fs.remove s.w.filename).setFile
            (backupName OsEnv.noFail s.fs s.w.filename now) f.contents f.mode).setFile
              s.w.filename [] f.mode).files,
          w'.timeFromName x.name w'.pfxAndExt.1 w'.pfxAndExt.2 = none := by
      intro w' hw' x hx
      have hpe : w'.pfxAndExt = s.w.pfxAndExt := by
        unfold RotateWriter.pfxAndExt
        rw [hw']
      rcases mem_setFile_cases _ _ _ _ x hx with h1 | rfl
      · rcases mem_setFile_cases _ _ _ _ x h1 with h2 | rfl
        · have hxs := mem_remove_sub _ _ x h2
          rw [hpe]
          exact hnp x hxs
        · show w'.timeFromName (backupName OsEnv.noFail s.fs s.w.filename now)
            w'.pfxAndExt.1 w'.pfxAndExt.2 = none
          rw [hi2, hpe]
          exact timeFromName_backupCandidate_none w' s.w.filename now.date i hm hd
      · show w'.timeFromName s.w.filename w'.pfxAndExt.1 w'.pfxAndExt.2 = none
        rw [← hw']
        exact timeFromName_self_none w'
    -- counting: the rotation adds exactly one file
    have hsub3 : ∀ (l : List DirFile) (n : GoStr),
        ∀ x ∈ l.filter (fun q => ¬ q.name = n), ¬ x.name = n := by
      intro l n x hx
      simpa using List.of_mem_filter hx
    unfold Write
    dsimp only
    rw [if_neg (by omega), if_neg (by simp [hopen])]
    dsimp only
    rw [if_pos hover]
    unfold rotate openNew
    dsimp only [closeW]
    rw [if_neg (by decide), hfse, hstat]
    dsimp only
    rw [if_neg (by decide)]
    by_cases hcp : s.w.compress = true <;> [rw [if_pos hcp]; rw [if_neg hcp]] <;>
    · rw [if_neg (by decide)]
      dsimp only
      rw [mill_of_noParse OsEnv.noFail now _ (noParse_mk
        { filename := s.w.filename, maxSize := s.w.maxSize, maxAge := s.w.maxAge,
          maxBackups := s.w.maxBackups, compress := s.w.compress, fileOpen := true, size := 0 }
        _ _ (hparse4 _ rfl))]
      dsimp only
      refine ⟨rfl, ?_, ?_, ?_⟩
      · show ((((s.fs.remove s.w.filename).setFile
            (backupName OsEnv.noFail s.fs s.w.filename now) f.contents f.mode).setFile
              s.w.filename [] f.mode).append s.w.filename p).lookup
            (backupName OsEnv.noFail s.fs s.w.filename now) = _
        unfold FS.append
        rw [lookup_setFile_self _ _ _ _]
        rw [lookup_setFile_ne _ _ _ _ _ (fun hc => hbne hc.symm),
          lookup_setFile_ne _ _ _ _ _ (fun hc => hbne hc.symm),
          lookup_setFile_self _ _ _ _]
      · show ((((s.fs.remove s.w.filename).setFile
            (backupName OsEnv.noFail s.fs s.w.filename now) f.contents f.mode).setFile
              s.w.filename [] f.mode).append s.w.filename p).lookup s.w.filename = _
        unfold FS.append
        rw [lookup_setFile_self _ _ _ _]
        rw [lookup_setFile_self _ _ _ _]
        rfl
      · show ((((s.fs.remove s.w.filename).setFile
            (backupName OsEnv.noFail s.fs s.w.filename now) f.contents f.mode).setFile
              s.w.filename [] f.mode).append s.w.filename p).files.length
            = s.fs.files.length + 1
        unfold FS.append
        rw [lookup_setFile_self _ _ _ _]
        rw [length_setFile]
        have e1 : ((FS.setFile ((s.fs.remove s.w.filename).setFile
              (backupName OsEnv.noFail s.fs s.w.filename now) f.contents f.mode)
              s.w.filename [] f.mode).files).filter (fun q => ¬ q.name = s.w.filename)
            = (((s.fs.remove s.w.filename).setFile
              (backupName OsEnv.noFail s.fs s.w.filename now) f.contents f.mode).files).filter
                (fun q => ¬ q.name = s.w.filename) := by
          show ((((((s.fs.remove s.w.filename).setFile
              (backupName OsEnv.noFail s.fs s.w.filename now) f.contents f.mode).files).filter
                (fun q : DirFile => ¬ q.name = s.w.filename))
              ++ ([⟨s.w.filename, [], f.mode⟩] : List DirFile)).filter
                (fun q : DirFile => ¬ q.name = s.w.filename)) = _
          rw [List.filter_append, filter_ne_of_none _ _ (hsub3 _ _)]
          simp
        rw [e1]
        have e2 : (((s.fs.remove s.w.filename).setFile
              (backupName OsEnv.noFail s.fs s.w.filename now) f.contents f.mode).files).filter
                (fun q => ¬ q.name = s.w.filename)
            = (s.fs.files.filter (fun q => ¬ q.name = s.w.filename))
              ++ [⟨backupName OsEnv.noFail s.fs s.w.filename now, f.contents, f.mode⟩] := by
          show ((((s.fs.files.filter (fun q : DirFile => ¬ q.name = s.w.filename)).filter
              (fun q : DirFile => ¬ q.name = backupName OsEnv.noFail s.fs s.w.filename now))
              ++ ([⟨backupName OsEnv.noFail s.fs s.w.filename now, f.contents, f.mode⟩] : List DirFile)).filter
                (fun q : DirFile => ¬ q.name = s.w.filename)) = _
          rw [List.filter_append,
            filter_ne_of_none _ _ (fun x hx => hbnone x (List.mem_of_mem_filter hx)),
            filter_ne_of_none _ _ (hsub3 _ _)]
          congr 1
          rw [List.filter_cons, if_pos (by simpa using fun hc => hbne hc.symm)]
          rfl
        rw [e2]
        have hfmem : f ∈ s.fs.files := List.mem_of_find?_eq_some hlk
        have hfname : f.name = s.w.filename := by
          have := List.find?_some hlk
          simpa using this
        have := length_filter_ne_of_mem s.fs.files s.w.filename hnd f hfmem hfname
        simp only [List.length_append, List.length_cons, List.length_nil]
        omega
  · decide

/-- The worked example just before the threshold-crossing write: an open
handle on a full 10-byte `app.log`. -/
def c5Mid : World :=
  { w := { wBytes 10 0 0 with fileOpen := true, size := 10 },
    fs := { dirExists := true, files := [⟨appLog, str "abcdefghij", 420⟩] },
    scheduled := [] }

/-- Witness for C5's general part: the write of `"k"` against the full
file produces exactly one backup and lands in the fresh file. -/
theorem C5_rotation_once_per_crossing_witness :
    (Write OsEnv.noFail now26 (str "k") c5Mid).1 = ((str "k").length, none) ∧
    (Write OsEnv.noFail now26 (str "k") c5Mid).2.fs.lookup
        (backupName OsEnv.noFail c5Mid.fs appLog now26)
      = some ⟨backupName OsEnv.noFail c5Mid.fs appLog now26, str "abcdefghij", 420⟩ ∧
    (Write OsEnv.noFail now26 (str "k") c5Mid).2.fs.lookup appLog
      = some ⟨appLog, str "k", 420⟩ ∧
    (Write OsEnv.noFail now26 (str "k") c5Mid).2.fs.files.length
      = c5Mid.fs.files.length + 1 :=
  C5_rotation_once_per_crossing.1 now26 (str "k") c5Mid ⟨appLog, str "abcdefghij", 420⟩
    (by decide) (by decide) (by decide) (by decide) (by decide) (by decide) (by decide)
    (by decide) (by decide) (by decide)

end RotateLog
